import Mathlib

/-!
GoSAFE.citygml: the WKT encoder and the reprojector.

A shallow embedding of `main.go`: `removeWhitespaces`, `fastSplit`, `Geometry`, `Building`,
`Building.GeometryAsWKT`, `toWKT` and `transform`, together with the parts of the Go standard
library they call (`strings.Fields`, `strings.FieldsFunc`, `strings.Split`, `strings.Join`,
`strings.Trim`, the `range` loop over a string, `regexp.FindAllString` for the one pattern used).

A Go string is a sequence of bytes; it is modelled as a list of byte values. `len`, slicing and
indexing are in bytes, as in Go. A run-time panic (index out of range, slice bounds out of range)
is the result `none`.

The numeric library that `transform` calls is a parameter (`Numeric`). For the rounding of the
output, `strconv.ParseFloat` and `strconv.FormatFloat` are modelled on 64-bit floating-point
numbers (`Float64`, `ParseFloat64`, `FormatFloat6`).
-/

namespace GoSAFE

/-- A Go string: its bytes, in order. A byte is a number below 256; the functions below are
total on all numbers, and a number from 256 on is treated as an invalid byte. -/
abbrev Str := List Nat

/-- UTF-8 encoding of one code point. -/
def utf8Bytes (c : Nat) : Str :=
  if c < 0x80 then [c]
  else if c < 0x800 then [0xC0 + c / 64, 0x80 + c % 64]
  else if c < 0x10000 then [0xE0 + c / 4096, 0x80 + c / 64 % 64, 0x80 + c % 64]
  else [0xF0 + c / 262144, 0x80 + c / 4096 % 64, 0x80 + c / 64 % 64, 0x80 + c % 64]

/-- The bytes of a string literal of the source (Go source text is UTF-8). -/
def lit (s : String) : Str :=
  (s.data.map (fun c => utf8Bytes c.toNat)).flatten

/-! ## The Go standard library, as far as `main.go` uses it -/

/-- `utf8.RuneError`. -/
def RuneError : Nat := 0xFFFD

/-- Lower end of the range that Go accepts for the second byte after the first byte `s0`
(`acceptRanges` of `unicode/utf8`). -/
def accLo (s0 : Nat) : Nat := if s0 = 0xE0 then 0xA0 else if s0 = 0xF0 then 0x90 else 0x80

/-- Upper end of the range of the second byte after the first byte `s0`. -/
def accHi (s0 : Nat) : Nat := if s0 = 0xED then 0x9F else if s0 = 0xF4 then 0x8F else 0xBF

/-- `utf8.DecodeRuneInString`: the rune at the head of `s` and its width in bytes. An invalid or
truncated encoding is `(RuneError, 1)`; the empty string is `(RuneError, 0)`. The bit masks of
the Go code are written with `%` and `*`. -/
def decodeRune : Str → Nat × Nat
  | [] => (RuneError, 0)
  | s0 :: t =>
    if s0 < 0x80 then (s0, 1)
    else if s0 < 0xC2 then (RuneError, 1)
    else if s0 < 0xE0 then
      match t with
      | s1 :: _ =>
        if 0x80 ≤ s1 ∧ s1 ≤ 0xBF then (s0 % 32 * 64 + s1 % 64, 2) else (RuneError, 1)
      | _ => (RuneError, 1)
    else if s0 < 0xF0 then
      match t with
      | s1 :: s2 :: _ =>
        if accLo s0 ≤ s1 ∧ s1 ≤ accHi s0 then
          if 0x80 ≤ s2 ∧ s2 ≤ 0xBF then (s0 % 16 * 4096 + s1 % 64 * 64 + s2 % 64, 3)
          else (RuneError, 1)
        else (RuneError, 1)
      | _ => (RuneError, 1)
    else if s0 < 0xF5 then
      match t with
      | s1 :: s2 :: s3 :: _ =>
        if accLo s0 ≤ s1 ∧ s1 ≤ accHi s0 then
          if 0x80 ≤ s2 ∧ s2 ≤ 0xBF then
            if 0x80 ≤ s3 ∧ s3 ≤ 0xBF then
              (s0 % 8 * 262144 + s1 % 64 * 4096 + s2 % 64 * 64 + s3 % 64, 4)
            else (RuneError, 1)
          else (RuneError, 1)
        else (RuneError, 1)
      | _ => (RuneError, 1)
    else (RuneError, 1)

/-- `unicode.IsSpace`: the Latin-1 cases and the `White_Space` table. -/
def IsSpace (r : Nat) : Bool :=
  if r ≤ 0xFF then
    r = 0x09 || r = 0x0A || r = 0x0B || r = 0x0C || r = 0x0D || r = 0x20 || r = 0x85 || r = 0xA0
  else
    r = 0x1680 || (0x2000 ≤ r && r ≤ 0x200A) || r = 0x2028 || r = 0x2029 || r = 0x202F
      || r = 0x205F || r = 0x3000

/-- The runes of `for _, r := range s`; `k` is the number of bytes that still belong to the
rune decoded last. -/
def runesGo : Str → Nat → List Nat
  | [], _ => []
  | b :: s, 0 => (decodeRune (b :: s)).1 :: runesGo s ((decodeRune (b :: s)).2 - 1)
  | _ :: s, k + 1 => runesGo s k

/-- The runes of a string, as the `range` loop yields them. -/
def runes (s : Str) : List Nat := runesGo s 0

/-- The loop of `strings.FieldsFunc` over `for end, rune := range s`. `k` is the number of bytes
that still belong to the rune decoded last and `c` says whether `f` held of that rune. The
result is the bytes of the span open at the head of the string (empty when the head is a
separator) and the spans after it. -/
def fieldsScan (f : Nat → Bool) : Str → Nat → Bool → Str × List Str
  | [], _, _ => ([], [])
  | b :: s, k, c =>
    let sep := if k = 0 then f (decodeRune (b :: s)).1 else c
    let k1 := if k = 0 then (decodeRune (b :: s)).2 - 1 else k - 1
    let r := fieldsScan f s k1 sep
    if sep then ([], if r.1 = [] then r.2 else r.1 :: r.2) else (b :: r.1, r.2)

/-- `strings.FieldsFunc(s, f)`: the maximal runs of runes that do not satisfy `f`. -/
def FieldsFunc (s : Str) (f : Nat → Bool) : List Str :=
  let r := fieldsScan f s 0 false
  if r.1 = [] then r.2 else r.1 :: r.2

/-- `strings.Fields(s)`: `FieldsFunc(s, unicode.IsSpace)` (the ASCII fast path of the Go code
computes the same). -/
def Fields (s : Str) : List Str := FieldsFunc s IsSpace

/-- `strings.Split(s, sep)` for a separator of one byte. -/
def Split : Str → Nat → List Str
  | [], _ => [[]]
  | b :: s, sep =>
    if b = sep then [] :: Split s sep
    else
      match Split s sep with
      | [] => [[b]]
      | h :: t => (b :: h) :: t

/-- `strings.Join(elems, sep)`. -/
def Join : List Str → Str → Str
  | [], _ => []
  | [a], _ => a
  | a :: b :: l, sep => a ++ sep ++ Join (b :: l) sep

/-- The slice expression `s[:n]` for a signed `n`; out of bounds panics. -/
def sliceTo (s : Str) (n : Int) : Option Str :=
  if 0 ≤ n ∧ n ≤ (s.length : Int) then some (s.take n.toNat) else none

/-! ## `main.go` -/

/-- `removeWhitespaces`. -/
def removeWhitespaces (s : Str) : Str := Join (Fields s) (lit " ")

/-- `fastSplit`. -/
def fastSplit (c : Nat) : Bool := c = 0x20

/-- `Geometry`: one linear ring in its three encodings. -/
structure Geometry where
  Pos : List Str
  PosList : Str
  Coordinates : Str
deriving DecidableEq, Repr

/-- `Building`. -/
structure Building where
  ID : Str
  LOD0FootPrint : List Geometry
  LOD1MultiSurface : List Geometry
  LOD2MultiSurface : List Geometry
  LOD3MultiSurface : List Geometry
  LOD4MultiSurface : List Geometry
deriving DecidableEq, Repr

/-- The loop `for _, s := range p.Pos` of `toWKT`. -/
def posLoop : List Str → Str → Option Str
  | [], poly => some poly
  | s :: ss, poly =>
    let sa := Split (removeWhitespaces s) 0x20
    match sa[0]?, sa[1]? with
    | some a, some b => posLoop ss (poly ++ a ++ lit " " ++ b ++ lit ", ")
    | _, _ => none

/-- The loop `for i, c := range sa` of the `posList` branch of `toWKT`. -/
def posListLoop : List Str → Nat → Str → Option Str
  | [], _, poly => some poly
  | c :: cs, i, poly =>
    if (i + 1) % 3 ≠ 0 then posListLoop cs (i + 1) (poly ++ c ++ lit " ")
    else
      match sliceTo poly ((poly.length : Int) - 1) with
      | some q => posListLoop cs (i + 1) (q ++ lit ", ")
      | none => none

/-- The loop `for _, c := range sa` of the `coordinates` branch of `toWKT`. -/
def coordLoop : List Str → Str → Option Str
  | [], poly => some poly
  | c :: cs, poly =>
    let ca := Split c 0x2C
    match ca[0]?, ca[1]? with
    | some a, some b => coordLoop cs (poly ++ a ++ lit " " ++ b ++ lit ", ")
    | _, _ => none

/-- The body of the loop `for _, p := range g` of `toWKT`: the value of `poly` that is
appended to `wkt`. -/
def ringPoly (p : Geometry) : Option Str :=
  let body :=
    if p.Pos.length > 0 then posLoop p.Pos (lit "((")
    else if p.PosList ≠ [] then posListLoop (Split p.PosList 0x20) 0 (lit "((")
    else if p.Coordinates ≠ [] then
      coordLoop (Split (removeWhitespaces p.Coordinates) 0x20) (lit "((")
    else some (lit "((")
  match body with
  | some poly =>
    match sliceTo poly ((poly.length : Int) - 2) with
    | some q => some (q ++ lit "))")
    | none => none
  | none => none

/-- The loop `for _, p := range g` of `toWKT`. -/
def toWKTLoop : List Geometry → Str → Option Str
  | [], wkt => some wkt
  | p :: g, wkt =>
    match ringPoly p with
    | some poly => toWKTLoop g (wkt ++ poly)
    | none => none

/-- `toWKT`. -/
def toWKT (g : List Geometry) : Option Str :=
  match toWKTLoop g (lit "MULTIPOLYGON(") with
  | some wkt => some (wkt ++ lit ")")
  | none => none

/-- `Building.GeometryAsWKT`: `wkt` starts as the empty string and no branch is taken when all
five collections are empty. -/
def GeometryAsWKT (b : Building) : Option Str :=
  if b.LOD0FootPrint.length > 0 then toWKT b.LOD0FootPrint
  else if b.LOD1MultiSurface.length > 0 then toWKT b.LOD1MultiSurface
  else if b.LOD2MultiSurface.length > 0 then toWKT b.LOD2MultiSurface
  else if b.LOD3MultiSurface.length > 0 then toWKT b.LOD3MultiSurface
  else if b.LOD4MultiSurface.length > 0 then toWKT b.LOD4MultiSurface
  else some (lit "")

/-- One step of the pattern `.*?\)\)`: the shortest text at the head of the string that ends
in `))` and has no line feed before it (`.` matches every rune but the line feed, an invalid
byte included, and `)` starts a rune wherever it stands). -/
def matchBody : Str → Option Str
  | [] => none
  | b :: rest =>
    if b = 0x29 ∧ rest.head? = some 0x29 then some [0x29, 0x29]
    else if b = 0x0A then none
    else
      match matchBody rest with
      | some m => some (b :: m)
      | none => none

/-- The match of the pattern `\(\((.*?)\)\)` that starts at the head of the string. -/
def matchAt : Str → Option Str
  | 0x28 :: 0x28 :: rest =>
    match matchBody rest with
    | some m => some (0x28 :: 0x28 :: m)
    | none => none
  | _ => none

/-- The scan of `FindAllString`: leftmost match first, the next one searched from the end of
the one before. `k` is the number of bytes left of the match found last. -/
def findAllGo : Str → Nat → List Str
  | [], _ => []
  | _ :: rest, k + 1 => findAllGo rest k
  | b :: rest, 0 =>
    match matchAt (b :: rest) with
    | some m => m :: findAllGo rest (m.length - 1)
    | none => findAllGo rest 0

/-- `re.FindAllString(s, -1)` for `re = regexp.MustCompile("\(\((.*?)\)\)")`. -/
def FindAllString (s : Str) : List Str := findAllGo s 0

/-- `strings.Trim(s, cutset)` for a cutset of ASCII bytes. -/
def Trim (s : Str) (cutset : Str) : Str :=
  ((s.dropWhile (fun b => cutset.contains b)).reverse.dropWhile
    (fun b => cutset.contains b)).reverse

/-- The numeric library calls of `transform`, over a type `F` of floating-point numbers:
`strconv.ParseFloat(_, 64)` with its error dropped, `proj.Transform2(projection, wgs84, _, _)`
for the projection made from `"+init=epsg:" + epsg` with its error dropped, `proj.RadToDeg`
and `strconv.FormatFloat` with format `f`, precision 6 and bit size 64. -/
structure Numeric (F : Type) where
  ParseFloat : Str → F
  Transform2 : Str → F → F → F × F
  RadToDeg : F → F
  FormatFloat : F → Str

/-- The text `ct` that `transform` makes of the two fields of one coordinate pair. -/
def reprojectPair {F : Type} (num : Numeric F) (epsg a b : Str) : Str :=
  let x := num.ParseFloat a
  let y := num.ParseFloat b
  let t := num.Transform2 epsg x y
  let xts := num.FormatFloat (num.RadToDeg t.1)
  let yts := num.FormatFloat (num.RadToDeg t.2)
  xts ++ lit " " ++ yts

/-- The loop `for _, c := range sa` of `transform`. -/
def pairLoop {F : Type} (num : Numeric F) (epsg : Str) : List Str → Str → Option Str
  | [], p => some p
  | c :: sa, p =>
    let ca := FieldsFunc c fastSplit
    match ca[0]?, ca[1]? with
    | some a, some b => pairLoop num epsg sa (p ++ reprojectPair num epsg a b ++ lit ", ")
    | _, _ => none

/-- The loop `for _, i := range re.FindAllString(s, -1)` of `transform`. -/
def ringLoop {F : Type} (num : Numeric F) (epsg : Str) : List Str → Str → Option Str
  | [], wkt => some wkt
  | i :: rest, wkt =>
    let poly := Trim i (lit "()")
    let sa := Split poly 0x2C
    match pairLoop num epsg sa (lit "((") with
    | some p =>
      match sliceTo p ((p.length : Int) - 2) with
      | some q => ringLoop num epsg rest (wkt ++ (q ++ lit "))") ++ lit ", ")
      | none => none
    | none => none

/-- `transform`. -/
def transform {F : Type} (num : Numeric F) (s epsg : Str) : Option Str :=
  match ringLoop num epsg (FindAllString s) (lit "MULTIPOLYGON(") with
  | some wkt =>
    match sliceTo wkt ((wkt.length : Int) - 2) with
    | some q => some (q ++ lit ")")
    | none => none
  | none => none

/-! ## Auxiliary notions of the proofs -/

/-- A numeric library for concrete evaluations: a number is its text, the projection and the
conversion to degrees leave it as it is. -/
def textNumeric : Numeric Str :=
  ⟨fun s => s, fun _ x y => (x, y), fun x => x, fun x => x⟩

/-- The first `k` bytes of the string exist and none of them is an ASCII byte: what is known
of the bytes that the decoder took as the continuation bytes of a rune. -/
def contBytes : Nat → Str → Prop
  | 0, _ => True
  | _ + 1, [] => False
  | k + 1, b :: s => 0x80 ≤ b ∧ contBytes k s

/-- A ring that holds the points `pts` (first, second and third value of each) in one
encoding: `pos` tokens `x y` or `x y z`, a `posList` of the tokens `x y z` joined by single
spaces, or `coordinates` tokens `x,y` or `x,y,z` joined by single spaces; the other two fields
are empty. -/
def EncodesPoints (g : Geometry) (pts : List (Str × Str × Str)) : Prop :=
  g = ⟨pts.map (fun p => p.1 ++ lit " " ++ p.2.1), [], []⟩ ∨
  g = ⟨pts.map (fun p => p.1 ++ lit " " ++ p.2.1 ++ lit " " ++ p.2.2), [], []⟩ ∨
  g = ⟨[], Join (pts.map (fun p => [p.1, p.2.1, p.2.2])).flatten (lit " "), []⟩ ∨
  g = ⟨[], [], Join (pts.map (fun p => p.1 ++ lit "," ++ p.2.1)) (lit " ")⟩ ∨
  g = ⟨[], [], Join (pts.map (fun p => p.1 ++ lit "," ++ p.2.1 ++ lit "," ++ p.2.2)) (lit " ")⟩

/-! ## A numeric library in exact arithmetic, for concrete evaluations -/

/-- The number that a text of decimal digits stands for. -/
def digitsValue (s : Str) : Nat := s.foldl (fun a b => a * 10 + (b - 48)) 0

/-- A non-empty text of decimal digits. -/
def isDigits (s : Str) : Bool :=
  !s.isEmpty && s.all (fun b => decide (48 ≤ b) && decide (b ≤ 57))

/-- Numerator and denominator of a decimal text `digits` or `digits.digits`. -/
def parseUnsignedParts (s : Str) : Option (Nat × Nat) :=
  let ip := s.takeWhile (fun b => b != 46)
  match s.dropWhile (fun b => b != 46) with
  | [] => if isDigits ip then some (digitsValue ip, 1) else none
  | _ :: fp =>
    if isDigits ip && isDigits fp then
      some (digitsValue ip * 10 ^ fp.length + digitsValue fp, 10 ^ fp.length)
    else none

/-- Sign (`true` for minus), numerator and denominator of a decimal text with an optional
sign. -/
def parseParts : Str → Option (Bool × Nat × Nat)
  | 45 :: t => (parseUnsignedParts t).map (fun p => (true, p.1, p.2))
  | 43 :: t => (parseUnsignedParts t).map (fun p => (false, p.1, p.2))
  | s => (parseUnsignedParts s).map (fun p => (false, p.1, p.2))

/-- The result of `strconv.ParseFloat` on a decimal text with an optional sign, in exact
arithmetic; `none` is the syntax error. Go reads further forms (exponent, hexadecimal, `Inf`,
`NaN`), which are not part of this stand-in. -/
def parseDecimal (s : Str) : Option ℚ :=
  (parseParts s).map (fun p => (if p.1 then -(p.2.1 : ℚ) else (p.2.1 : ℚ)) / (p.2.2 : ℚ))

/-- The decimal digits of a number, the most significant first; `fuel` bounds their count. -/
def digitsText : Nat → Nat → Str
  | 0, _ => []
  | fuel + 1, n => if n < 10 then [n + 48] else digitsText fuel (n / 10) ++ [n % 10 + 48]

/-- The last `k` decimal digits of a number, with leading zeros. -/
def fixedText : Nat → Nat → Str
  | 0, _ => []
  | k + 1, n => fixedText k (n / 10) ++ [n % 10 + 48]

/-- The decimal text, with six places, of a whole number of millionths. -/
def formatMicro (n : Int) : Str :=
  (if n < 0 then [45] else []) ++ digitsText (n.natAbs / 1000000 + 1) (n.natAbs / 1000000)
    ++ [46] ++ fixedText 6 (n.natAbs % 1000000)

/-- The text of `strconv.FormatFloat` with format `f` and precision 6, in exact arithmetic:
the value is rounded to the nearest multiple of `0.000001`. -/
def formatFixed6 (v : ℚ) : Str := formatMicro ⌊v * 1000000 + 1 / 2⌋

/-- A numeric library in exact arithmetic whose `Transform2` returns `x` and `y` unchanged;
`conv` is the conversion applied to its output. `ParseFloat` is the value that Go returns
together with the error: `0` on a syntax error. -/
def decimalNumeric (conv : ℚ → ℚ) : Numeric ℚ :=
  ⟨fun s => (parseDecimal s).getD 0, fun _ x y => (x, y), conv, formatFixed6⟩

/-! ## The numeric library on 64-bit floating-point numbers -/

/-- The number that a decimal text with an optional sign denotes: an output coordinate read as
a number. -/
def decimalValue (s : Str) : Option ℚ := parseDecimal s

/-- A value of the Go type `float64`: not a number, an infinity with its sign, or the finite
number `mant * 2 ^ exp` with its sign bit, which a zero has too. The numbers of 64 bits are
the ones with `mant < 2 ^ 53` and `-1074 ≤ exp ≤ 971`. -/
inductive Float64 where
  | nan : Float64
  | inf (neg : Bool) : Float64
  | fin (neg : Bool) (mant : Nat) (exp : Int) : Float64
deriving DecidableEq

/-- The number that a finite value stands for; an infinity and `NaN` stand for none. -/
def Float64.value : Float64 → Option ℚ
  | .fin neg mant exp => some ((if neg then -(mant : ℚ) else (mant : ℚ)) * (2 : ℚ) ^ exp)
  | _ => none

/-- The whole number nearest to `n / d`, the even one of two that are equally near. -/
def roundHalfEven (n d : Nat) : Nat :=
  if 2 * (n % d) < d then n / d
  else if d < 2 * (n % d) then n / d + 1
  else if n / d % 2 = 0 then n / d else n / d + 1

/-- The whole number nearest to `n * 2 ^ e / d`, the even one of two that are equally near. -/
def scaleRound (n d : Nat) (e : Int) : Nat :=
  if 0 ≤ e then roundHalfEven (n * 2 ^ e.toNat) d else roundHalfEven n (d * 2 ^ (-e).toNat)

/-- The whole part of `n * 2 ^ e / d`. -/
def scaleFloor (n d : Nat) (e : Int) : Nat :=
  if 0 ≤ e then n * 2 ^ e.toNat / d else n / (d * 2 ^ (-e).toNat)

/-- The text of `strconv.FormatFloat` with format `f`, precision 6 and bit size 64: `NaN`,
`+Inf` and `-Inf` for the values that are no numbers; for a finite value the minus sign if the
sign bit is set, then the exact magnitude rounded to six places, to the even digit if it lies
halfway. -/
def FormatFloat6 : Float64 → Str
  | .nan => lit "NaN"
  | .inf neg => if neg then lit "-Inf" else lit "+Inf"
  | .fin neg mant exp =>
    (if neg then lit "-" else []) ++ formatMicro (scaleRound (mant * 1000000) 1 exp : Nat)

/-- The number of binary digits of a number; `fuel` bounds their count. -/
def bitLengthFuel : Nat → Nat → Nat
  | 0, _ => 0
  | fuel + 1, n => if n = 0 then 0 else bitLengthFuel fuel (n / 2) + 1

/-- The number of binary digits of a number. -/
def bitLength (n : Nat) : Nat := bitLengthFuel n n

/-- The 64-bit number nearest to `n / d` with the sign bit `neg`, the one with the even
mantissa of two that are equally near (the rounding of IEEE 754): 53 binary digits, fewer
below `2 ^ -1022`, and the infinity from `2 ^ 1024` on. -/
def round64 (neg : Bool) (n d : Nat) : Float64 :=
  if n = 0 then .fin neg 0 0
  else
    let e0 : Int := (bitLength n : Int) - (bitLength d : Int) - 53
    let e1 : Int := if 2 ^ 53 ≤ scaleFloor n d (-e0) then e0 + 1 else e0
    let e : Int := if e1 < -1074 then -1074 else e1
    let m := scaleRound n d (-e)
    if 971 < e ∨ (e = 971 ∧ 2 ^ 53 ≤ m) then .inf neg else .fin neg m e

/-- The function `commonPrefixLenIgnoreCase` of package `strconv`: the length of the longest
start of `s` that equals, with capital letters made small, a start of `t`. -/
def commonPrefixLenIgnoreCase : Str → Str → Nat
  | c :: s, p :: t =>
    if (if 65 ≤ c ∧ c ≤ 90 then c + 32 else c) = p then commonPrefixLenIgnoreCase s t + 1
    else 0
  | _, _ => 0

/-- The function `special` of package `strconv`: the value and the number of bytes read of a
text that starts with `Inf` or `Infinity` (optional sign) or with `NaN`, capital or small. -/
def special : Str → Option (Float64 × Nat)
  | [] => none
  | c :: t =>
    if c = 43 ∨ c = 45 then
      let n := commonPrefixLenIgnoreCase t (lit "infinity")
      let n := if 3 < n ∧ n < 8 then 3 else n
      if n = 3 ∨ n = 8 then some (.inf (decide (c = 45)), 1 + n) else none
    else if c = 105 ∨ c = 73 then
      let n := commonPrefixLenIgnoreCase (c :: t) (lit "infinity")
      let n := if 3 < n ∧ n < 8 then 3 else n
      if n = 3 ∨ n = 8 then some (.inf false, n) else none
    else if c = 110 ∨ c = 78 then
      if commonPrefixLenIgnoreCase (c :: t) (lit "nan") = 3 then some (.nan, 3) else none
    else none

/-- A byte that is a decimal digit. -/
def isDigit (c : Nat) : Bool := decide (48 ≤ c) && decide (c ≤ 57)

/-- A byte that is one of the letters `a` to `f`, capital or small. -/
def isHexLetter (c : Nat) : Bool :=
  (decide (65 ≤ c) && decide (c ≤ 70)) || (decide (97 ≤ c) && decide (c ≤ 102))

/-- The loop of `underscoreOK` of package `strconv`; `saw` is the kind of the last byte: `0`
at the start, `1` a digit (or the base mark), `2` an underscore, `3` any other byte. An
underscore is allowed only between two digits. -/
def underscoreScan (hex : Bool) : Str → Nat → Bool
  | [], saw => saw != 2
  | c :: s, saw =>
    if isDigit c || (hex && isHexLetter c) then underscoreScan hex s 1
    else if c = 95 then (if saw = 1 then underscoreScan hex s 2 else false)
    else if saw = 2 then false
    else underscoreScan hex s 3

/-- The function `underscoreOK` of package `strconv`: after an optional sign and an optional
base mark (`0b`, `0o`, `0x`), every underscore stands between two digits. -/
def underscoreOK (s : Str) : Bool :=
  let t := match s with
    | 43 :: t => t
    | 45 :: t => t
    | _ => s
  match t with
  | 48 :: c :: r =>
    if c = 98 ∨ c = 66 ∨ c = 111 ∨ c = 79 ∨ c = 120 ∨ c = 88 then
      underscoreScan (decide (c = 120 ∨ c = 88)) r 1
    else underscoreScan false t 0
  | _ => underscoreScan false t 0

/-- The loop over the mantissa in `readFloat` of package `strconv`: digits, underscores and
one point. The result is the whole number that the digits write (base 16 if `hex`), the
number of digits after the point, whether a digit was seen, and the text left over. -/
def readMantissa (hex : Bool) : Str → Nat → Nat → Bool → Bool → Nat × Nat × Bool × Str
  | [], mant, frac, _, sawdigits => (mant, frac, sawdigits, [])
  | c :: s, mant, frac, sawdot, sawdigits =>
    if c = 95 then readMantissa hex s mant frac sawdot sawdigits
    else if c = 46 then
      if sawdot then (mant, frac, sawdigits, c :: s)
      else readMantissa hex s mant frac true sawdigits
    else if isDigit c then
      readMantissa hex s (mant * (if hex then 16 else 10) + (c - 48))
        (if sawdot then frac + 1 else frac) sawdot true
    else if hex && isHexLetter c then
      readMantissa hex s (mant * 16 + ((if c < 97 then c + 32 else c) - 87))
        (if sawdot then frac + 1 else frac) sawdot true
    else (mant, frac, sawdigits, c :: s)

/-- The loop over the digits of the exponent in `readFloat`: underscores are skipped, and a
digit is no longer added once the exponent has reached `10000`. -/
def readExponentDigits : Str → Nat → Nat × Str
  | [], e => (e, [])
  | c :: s, e =>
    if isDigit c then readExponentDigits s (if e < 10000 then e * 10 + (c - 48) else e)
    else if c = 95 then readExponentDigits s e
    else (e, c :: s)

/-- The exponent in `readFloat`, after the exponent letter: an optional sign and digits, of
which the first is required; the result is the exponent and the text left over. -/
def readExponent (s : Str) : Option (Int × Str) :=
  match s with
  | [] => none
  | c :: r =>
    let t := if c = 43 ∨ c = 45 then r else s
    match t with
    | [] => none
    | d :: _ =>
      if isDigit d then
        let p := readExponentDigits t 0
        some (if c = 45 then -(p.1 : Int) else (p.1 : Int), p.2)
      else none

/-- The function `readFloat` of package `strconv` on a text that `ParseFloat` reads to its end:
sign, whether the text is hexadecimal (mark `0x`), the whole number `mant` of the digits and
the exponent `scale`, for the number `mant * 10 ^ scale`, or `mant * 2 ^ scale` if hexadecimal.
The result is `none` on a syntax error, which includes text left over. -/
def readFloat (s : Str) : Option (Bool × Bool × Nat × Int) :=
  match s with
  | [] => none
  | c :: r =>
    let t := if c = 43 ∨ c = 45 then r else s
    let hex := match t with
      | 48 :: x :: _ :: _ => decide (x = 120 ∨ x = 88)
      | _ => false
    let m := readMantissa hex (if hex then t.drop 2 else t) 0 0 false false
    let scale : Int := -((if hex then 4 * m.2.1 else m.2.1 : Nat) : Int)
    if !m.2.2.1 then none
    else
      match m.2.2.2 with
      | [] => if !hex && underscoreOK s then some (decide (c = 45), hex, m.1, scale) else none
      | x :: rest =>
        if (hex && decide (x = 112 ∨ x = 80)) || (!hex && decide (x = 101 ∨ x = 69)) then
          match readExponent rest with
          | none => none
          | some (e, left) =>
            if left = [] ∧ underscoreOK s = true then some (decide (c = 45), hex, m.1, scale + e)
            else none
        else none

/-- The value that `strconv.ParseFloat(s, 64)` returns beside its error: the infinities and
`NaN` for the texts that `special` reads, the 64-bit number nearest to the number written for
a decimal or hexadecimal text (the infinity if it is too large), and `0` on a syntax error. -/
def ParseFloat64 (s : Str) : Float64 :=
  match special s with
  | some (v, n) => if n = s.length then v else .fin false 0 0
  | none =>
    match readFloat s with
    | some (neg, hex, mant, scale) =>
      if 0 ≤ scale then round64 neg (mant * (if hex then 2 else 10) ^ scale.toNat) 1
      else round64 neg mant ((if hex then 2 else 10) ^ (-scale).toNat)
    | none => .fin false 0 0

/-- The conversion `proj.RadToDeg` from radians to degrees as the product, rounded to 64 bits,
with the 64-bit number nearest to `180 / π`, which is `8063664102031864 * 2 ^ -47`; the
library `github.com/pebbe/go-proj-4/proj` is not part of the source. -/
def RadToDeg64 : Float64 → Float64
  | .nan => .nan
  | .inf neg => .inf neg
  | .fin neg mant exp =>
    if 0 ≤ exp - 47 then round64 neg (mant * 8063664102031864 * 2 ^ (exp - 47).toNat) 1
    else round64 neg (mant * 8063664102031864) (2 ^ (47 - exp).toNat)

/-- The numeric library on 64-bit numbers with a `Transform2` that returns `x` and `y`
unchanged: the case of a source system equal to the target system. -/
def float64Numeric : Numeric Float64 :=
  ⟨ParseFloat64, fun _ x y => (x, y), RadToDeg64, FormatFloat6⟩

/-! ## Lemmas on the library model -/

theorem lit_space : lit " " = [0x20] := by decide

theorem lit_comma_space : lit ", " = [0x2C, 0x20] := by decide

theorem sliceTo_append (a b : Str) (n : Nat) (h : b.length = n) :
    sliceTo (a ++ b) (((a ++ b).length : Int) - (n : Int)) = some a := by
  subst h
  have e : (((a ++ b).length : Int) - (b.length : Int)) = (a.length : Int) := by
    simp [List.length_append]
  rw [e]
  simp [sliceTo]

theorem Split_ne_nil (s : Str) (sep : Nat) : Split s sep ≠ [] := by
  induction s with
  | nil => simp [Split]
  | cons b s ih =>
    simp only [Split]
    split
    · simp
    · split <;> simp

theorem Split_of_not_mem (sep : Nat) (t : Str) (h : sep ∉ t) : Split t sep = [t] := by
  induction t with
  | nil => rfl
  | cons b t ih =>
    have hb : b ≠ sep := fun e => h (by simp [e])
    have ht : sep ∉ t := fun e => h (by simp [e])
    simp [Split, hb, ih ht]

theorem Split_append_sep (sep : Nat) (t r : Str) (h : sep ∉ t) :
    Split (t ++ sep :: r) sep = t :: Split r sep := by
  induction t with
  | nil => simp [Split]
  | cons b t ih =>
    have hb : b ≠ sep := fun e => h (by simp [e])
    have ht : sep ∉ t := fun e => h (by simp [e])
    simp [Split, hb, ih ht]

/-- Splitting what `Join` made on a one-byte separator gives the elements back. -/
theorem Split_Join (sep : Nat) (ts : List Str) (hne : ts ≠ []) (h : ∀ t ∈ ts, sep ∉ t) :
    Split (Join ts [sep]) sep = ts := by
  induction ts with
  | nil => exact absurd rfl hne
  | cons a l ih =>
    cases l with
    | nil => simpa [Join] using Split_of_not_mem sep a (h a (by simp))
    | cons b l =>
      have ha : sep ∉ a := h a (by simp)
      have hl : ∀ t ∈ b :: l, sep ∉ t := fun t ht => h t (List.mem_cons_of_mem _ ht)
      simp only [Join, List.append_assoc, List.singleton_append]
      rw [Split_append_sep sep a _ ha, ih (by simp) hl]

/-- The text of a loop that appends `", "` after every element, with its last two bytes cut. -/
theorem flatten_sep_eq_Join (ps : List Str) (hne : ps ≠ []) :
    (ps.map (fun p => p ++ lit ", ")).flatten = Join ps (lit ", ") ++ lit ", " := by
  induction ps with
  | nil => exact absurd rfl hne
  | cons a l ih =>
    cases l with
    | nil => simp [Join]
    | cons b l =>
      have := ih (by simp)
      simp only [List.map_cons, List.flatten_cons] at this ⊢
      rw [this]
      simp [Join, List.append_assoc]

/-! ## The library model on examples -/

theorem Fields_example :
    Fields (lit "  foo bar  baz   ") = [lit "foo", lit "bar", lit "baz"] := by decide

theorem Fields_unicode_example :
    Fields (lit "a\u00A0b\u2003c\td\n") = [lit "a", lit "b", lit "c", lit "d"] ∧
    lit "\u00A0" = [0xC2, 0xA0] ∧ lit "\u2003" = [0xE2, 0x80, 0x83] := by decide

theorem FieldsFunc_example :
    FieldsFunc (lit " 1.5  2.5 ") fastSplit = [lit "1.5", lit "2.5"] := by decide

theorem Split_example :
    Split (lit "a,b,c") 0x2C = [lit "a", lit "b", lit "c"] ∧
    Split (lit " xyz ") 0x20 = [lit "", lit "xyz", lit ""] ∧
    Split (lit "") 0x20 = [lit ""] := by decide

theorem Join_example : Join [lit "foo", lit "bar", lit "baz"] (lit ", ") = lit "foo, bar, baz" := by
  decide

theorem Trim_example : Trim (lit "(((1 2, 3 4))") (lit "()") = lit "1 2, 3 4" := by decide

theorem FindAllString_example :
    FindAllString (lit "MULTIPOLYGON(((1 2, 3 4)), ((5 6)))")
      = [lit "(((1 2, 3 4))", lit "((5 6))"] ∧
    FindAllString (lit "((a\nb))((c))") = [lit "((c))"] ∧
    FindAllString (lit "MULTIPOLYGON()") = [] := by decide

theorem removeWhitespaces_example :
    removeWhitespaces (lit " 1.0 \t 2.0\n3.0 ") = lit "1.0 2.0 3.0" := by decide

/-! ## Lemmas on the decoding of runes -/

theorem accLo_spec (b : Nat) :
    0x80 ≤ accLo b ∧ (b = 0xE0 → accLo b = 0xA0) ∧ (b = 0xF0 → accLo b = 0x90) := by
  simp only [accLo]; split_ifs <;> omega

theorem accHi_spec (b : Nat) : accHi b ≤ 0xBF := by
  simp only [accHi]; split_ifs <;> omega

theorem decodeRune_ascii (b : Nat) (s : Str) (h : b < 0x80) : decodeRune (b :: s) = (b, 1) := by
  simp [decodeRune, h]

theorem decodeRune_ge (b : Nat) (s : Str) (h : 0x80 ≤ b) : 0x80 ≤ (decodeRune (b :: s)).1 := by
  have hlo := accLo_spec b
  have hhi := accHi_spec b
  rcases s with _ | ⟨s1, _ | ⟨s2, _ | ⟨s3, s⟩⟩⟩ <;>
    simp only [decodeRune, RuneError] <;> split_ifs <;>
    (simp only []; omega)

theorem decodeRune_cont (b : Nat) (s : Str) : contBytes ((decodeRune (b :: s)).2 - 1) s := by
  have hlo := accLo_spec b
  have hhi := accHi_spec b
  rcases s with _ | ⟨s1, _ | ⟨s2, _ | ⟨s3, s⟩⟩⟩ <;>
    simp only [decodeRune, RuneError] <;> split_ifs <;>
    simp only [contBytes, Nat.sub_self, Nat.reduceSub, and_true, true_and] <;> omega

/-- What follows an ASCII byte does not change how the bytes before it decode. -/
theorem decodeRune_append_ascii (b a : Nat) (t rest : Str) (ha : a < 0x80) :
    decodeRune (b :: (t ++ a :: rest)) = decodeRune (b :: t) := by
  have hlo := accLo_spec b
  have hhi := accHi_spec b
  by_cases h1 : b < 0x80
  · simp only [decodeRune, h1, if_true]
  by_cases h2 : b < 0xC2
  · simp only [decodeRune, h1, h2, if_true, if_false]
  have hna : ¬ (0x80 ≤ a ∧ a ≤ 0xBF) := by omega
  have hnb : ¬ (accLo b ≤ a ∧ a ≤ accHi b) := by omega
  by_cases h3 : b < 0xE0
  · rcases t with _ | ⟨s1, t⟩
    · simp only [decodeRune, h1, h2, h3, hna, if_true, if_false, List.nil_append]
    · simp only [decodeRune, h1, h2, h3, if_true, if_false, List.cons_append]
  by_cases h4 : b < 0xF0
  · rcases t with _ | ⟨s1, _ | ⟨s2, t⟩⟩
    · rcases rest with _ | ⟨r1, rest⟩ <;>
        simp only [decodeRune, h1, h2, h3, h4, hnb, if_true, if_false, List.nil_append]
    · simp only [decodeRune, h1, h2, h3, h4, hna, if_true, if_false, List.nil_append,
        List.cons_append, ite_self]
    · simp only [decodeRune, h1, h2, h3, h4, if_true, if_false, List.cons_append]
  by_cases h5 : b < 0xF5
  · rcases t with _ | ⟨s1, _ | ⟨s2, _ | ⟨s3, t⟩⟩⟩
    · rcases rest with _ | ⟨r1, _ | ⟨r2, rest⟩⟩ <;>
        simp only [decodeRune, h1, h2, h3, h4, h5, hnb, if_true, if_false, List.nil_append]
    · rcases rest with _ | ⟨r1, rest⟩ <;>
        simp only [decodeRune, h1, h2, h3, h4, h5, hna, if_true, if_false, List.nil_append,
          List.cons_append, ite_self]
    · simp only [decodeRune, h1, h2, h3, h4, h5, hna, if_true, if_false, List.nil_append,
        List.cons_append, ite_self]
    · simp only [decodeRune, h1, h2, h3, h4, h5, if_true, if_false, List.cons_append]
  · simp only [decodeRune, h1, h2, h3, h4, h5, if_false]

/-! ## Lemmas on `FieldsFunc` -/

theorem fieldsScan_start (f : Nat → Bool) (b : Nat) (s : Str) (c : Bool) :
    fieldsScan f (b :: s) 0 c =
      if f (decodeRune (b :: s)).1 then
        ([], if (fieldsScan f s ((decodeRune (b :: s)).2 - 1) true).1 = []
          then (fieldsScan f s ((decodeRune (b :: s)).2 - 1) true).2
          else (fieldsScan f s ((decodeRune (b :: s)).2 - 1) true).1 ::
            (fieldsScan f s ((decodeRune (b :: s)).2 - 1) true).2)
      else (b :: (fieldsScan f s ((decodeRune (b :: s)).2 - 1) false).1,
        (fieldsScan f s ((decodeRune (b :: s)).2 - 1) false).2) := by
  cases h : f (decodeRune (b :: s)).1 <;> simp [fieldsScan, h]

theorem fieldsScan_inside (f : Nat → Bool) (b : Nat) (s : Str) (k : Nat) :
    fieldsScan f (b :: s) (k + 1) false =
      (b :: (fieldsScan f s k false).1, (fieldsScan f s k false).2) := by
  simp [fieldsScan]

theorem fieldsScan_inside_sep (f : Nat → Bool) (b : Nat) (s : Str) (k : Nat) :
    fieldsScan f (b :: s) (k + 1) true =
      ([], if (fieldsScan f s k true).1 = [] then (fieldsScan f s k true).2
        else (fieldsScan f s k true).1 :: (fieldsScan f s k true).2) := by
  simp [fieldsScan]

/-- No field holds an ASCII byte that is a separator. -/
theorem fieldsScan_not_mem (f : Nat → Bool) (x : Nat) (hx : x < 0x80) (hf : f x = true)
    (s : Str) : ∀ (k : Nat) (c : Bool), contBytes k s →
      x ∉ (fieldsScan f s k c).1 ∧ ∀ t ∈ (fieldsScan f s k c).2, x ∉ t := by
  induction s with
  | nil => intro k c _; simp [fieldsScan]
  | cons b s ih =>
    intro k c hc
    cases k with
    | zero =>
      have hcont := decodeRune_cont b s
      rw [fieldsScan_start]
      by_cases hsep : f (decodeRune (b :: s)).1 = true
      · have := ih _ true hcont
        simp only [hsep, if_true]
        refine ⟨by simp, ?_⟩
        intro t ht
        split at ht
        · exact this.2 t ht
        · rcases List.mem_cons.mp ht with rfl | h
          · exact this.1
          · exact this.2 t h
      · have := ih _ false hcont
        simp only [hsep, if_false]
        refine ⟨?_, this.2⟩
        intro hmem
        rcases List.mem_cons.mp hmem with rfl | h
        · rw [decodeRune_ascii x s hx] at hsep
          exact hsep hf
        · exact this.1 h
    | succ k =>
      have hb : 0x80 ≤ b := hc.1
      have := ih k c hc.2
      cases c with
      | true =>
        rw [fieldsScan_inside_sep]
        refine ⟨by simp, ?_⟩
        intro t ht
        split at ht
        · exact this.2 t ht
        · rcases List.mem_cons.mp ht with rfl | h
          · exact this.1
          · exact this.2 t h
      | false =>
        rw [fieldsScan_inside]
        refine ⟨?_, this.2⟩
        intro hmem
        rcases List.mem_cons.mp hmem with rfl | h
        · omega
        · exact this.1 h

theorem FieldsFunc_not_mem (f : Nat → Bool) (x : Nat) (hx : x < 0x80) (hf : f x = true)
    (s t : Str) (ht : t ∈ FieldsFunc s f) : x ∉ t := by
  have := fieldsScan_not_mem f x hx hf s 0 false trivial
  simp only [FieldsFunc] at ht
  split at ht
  · exact this.2 t ht
  · rcases List.mem_cons.mp ht with rfl | h
    · exact this.1
    · exact this.2 t h

/-- No field of `strings.Fields` holds a space. -/
theorem Fields_no_space (s t : Str) (ht : t ∈ Fields s) : 0x20 ∉ t :=
  FieldsFunc_not_mem IsSpace 0x20 (by decide) (by decide) s t ht

/-! ## Fields of a string put together from tokens -/

theorem fieldsScan_zero (f : Nat → Bool) (s : Str) (c c1 : Bool) :
    fieldsScan f s 0 c = fieldsScan f s 0 c1 := by
  cases s with
  | nil => rfl
  | cons b s => rw [fieldsScan_start, fieldsScan_start]

theorem contBytes_ascii (k a : Nat) (rest : Str) (ha : a < 0x80)
    (h : contBytes k (a :: rest)) : k = 0 := by
  cases k with
  | zero => rfl
  | succ k => have := h.1; omega

theorem runesGo_start (b : Nat) (s : Str) :
    runesGo (b :: s) 0 = (decodeRune (b :: s)).1 :: runesGo s ((decodeRune (b :: s)).2 - 1) := by
  simp [runesGo]

/-- A run of runes that are no separators, up to an ASCII byte, is the head of one field. -/
theorem fieldsScan_token (f : Nat → Bool) (a : Nat) (ha : a < 0x80) (rest : Str) (t : Str) :
    ∀ k : Nat, contBytes k (t ++ a :: rest) → (∀ r ∈ runesGo t k, f r = false) →
      fieldsScan f (t ++ a :: rest) k false
        = (t ++ (fieldsScan f (a :: rest) 0 false).1, (fieldsScan f (a :: rest) 0 false).2) := by
  induction t with
  | nil =>
    intro k hc _
    have hk := contBytes_ascii k a rest ha hc
    subst hk
    simp
  | cons b t ih =>
    intro k hc hr
    cases k with
    | zero =>
      have hd := decodeRune_append_ascii b a t rest ha
      have hcont := decodeRune_cont b (t ++ a :: rest)
      rw [runesGo_start] at hr
      rw [hd] at hcont
      have hsep : f (decodeRune (b :: t)).1 = false := hr _ (by simp)
      have := ih _ hcont (fun r h => hr r (List.mem_cons_of_mem _ h))
      rw [List.cons_append, fieldsScan_start, hd, hsep, this]
      simp
    | succ k =>
      have := ih k hc.2 (fun r h => hr r (by simpa [runesGo] using h))
      rw [List.cons_append, fieldsScan_inside, this]
      simp

/-- A run of runes that are no separators, up to the end of the string, is one field. -/
theorem fieldsScan_token_end (f : Nat → Bool) (t : Str) :
    ∀ k : Nat, (∀ r ∈ runesGo t k, f r = false) → fieldsScan f t k false = (t, []) := by
  induction t with
  | nil => intro k _; rfl
  | cons b t ih =>
    intro k hr
    cases k with
    | zero =>
      rw [runesGo_start] at hr
      have hsep : f (decodeRune (b :: t)).1 = false := hr _ (by simp)
      have := ih _ (fun r h => hr r (List.mem_cons_of_mem _ h))
      rw [fieldsScan_start, hsep, this]
      simp
    | succ k =>
      have := ih k (fun r h => hr r (by simpa [runesGo] using h))
      rw [fieldsScan_inside, this]

theorem FieldsFunc_sep_cons (f : Nat → Bool) (a : Nat) (ha : a < 0x80) (hfa : f a = true)
    (rest : Str) : FieldsFunc (a :: rest) f = FieldsFunc rest f := by
  simp only [FieldsFunc]
  rw [fieldsScan_start, decodeRune_ascii a rest ha]
  simp only [hfa, if_true, Nat.sub_self]
  rw [fieldsScan_zero f rest true false]

theorem FieldsFunc_token_cons (f : Nat → Bool) (a : Nat) (ha : a < 0x80) (hfa : f a = true)
    (t : Str) (hne : t ≠ []) (ht : ∀ r ∈ runes t, f r = false) (rest : Str) :
    FieldsFunc (t ++ a :: rest) f = t :: FieldsFunc rest f := by
  have h1 := fieldsScan_token f a ha rest t 0 trivial ht
  have h2 : fieldsScan f (a :: rest) 0 false = ([], FieldsFunc rest f) := by
    rw [fieldsScan_start, decodeRune_ascii a rest ha]
    simp only [hfa, if_true, Nat.sub_self]
    rw [fieldsScan_zero f rest true false]
    simp [FieldsFunc]
  simp only [FieldsFunc]
  rw [h1, h2]
  simp [hne, FieldsFunc]

theorem FieldsFunc_token (f : Nat → Bool) (t : Str) (hne : t ≠ [])
    (ht : ∀ r ∈ runes t, f r = false) : FieldsFunc t f = [t] := by
  simp only [FieldsFunc]
  rw [fieldsScan_token_end f t 0 ht]
  simp [hne]

/-- The fields of tokens joined by an ASCII separator are the tokens. -/
theorem FieldsFunc_Join (f : Nat → Bool) (a : Nat) (ha : a < 0x80) (hfa : f a = true)
    (ts : List Str) (h : ∀ t ∈ ts, t ≠ [] ∧ ∀ r ∈ runes t, f r = false) :
    FieldsFunc (Join ts [a]) f = ts := by
  induction ts with
  | nil => simp [Join, FieldsFunc, fieldsScan]
  | cons t l ih =>
    cases l with
    | nil => simpa [Join] using FieldsFunc_token f t (h t (by simp)).1 (h t (by simp)).2
    | cons u l =>
      have ht := h t (by simp)
      simp only [Join, List.append_assoc, List.singleton_append]
      rw [FieldsFunc_token_cons f a ha hfa t ht.1 ht.2,
        ih (fun v hv => h v (List.mem_cons_of_mem _ hv))]

theorem runesGo_append_ascii (a : Nat) (ha : a < 0x80) (rest : Str) (t : Str) :
    ∀ k : Nat, contBytes k (t ++ a :: rest) →
      runesGo (t ++ a :: rest) k = runesGo t k ++ a :: runesGo rest 0 := by
  induction t with
  | nil =>
    intro k hc
    have hk := contBytes_ascii k a rest ha hc
    subst hk
    simp [runesGo, decodeRune_ascii a rest ha]
  | cons b t ih =>
    intro k hc
    cases k with
    | zero =>
      have hd := decodeRune_append_ascii b a t rest ha
      have hcont := decodeRune_cont b (t ++ a :: rest)
      rw [hd] at hcont
      rw [List.cons_append, runesGo_start, runesGo_start, hd, ih _ hcont]
      simp
    | succ k =>
      simpa [runesGo] using ih k hc.2

theorem runes_append_ascii (a : Nat) (ha : a < 0x80) (t rest : Str) :
    runes (t ++ a :: rest) = runes t ++ a :: runes rest :=
  runesGo_append_ascii a ha rest t 0 trivial

/-- An ASCII byte of a string is one of its runes. -/
theorem mem_runesGo_of_mem (x : Nat) (hx : x < 0x80) (t : Str) :
    ∀ k : Nat, contBytes k t → x ∈ t → x ∈ runesGo t k := by
  induction t with
  | nil => intro k _ h; simp at h
  | cons b t ih =>
    intro k hc hmem
    cases k with
    | zero =>
      rw [runesGo_start]
      rcases List.mem_cons.mp hmem with rfl | h
      · rw [decodeRune_ascii x t hx]; simp
      · exact List.mem_cons_of_mem _ (ih _ (decodeRune_cont b t) h)
    | succ k =>
      have hb : 0x80 ≤ b := hc.1
      rcases List.mem_cons.mp hmem with rfl | h
      · omega
      · simpa [runesGo] using ih k hc.2 h

/-- An ASCII rune of a string is one of its bytes. -/
theorem mem_of_mem_runesGo (x : Nat) (hx : x < 0x80) (t : Str) :
    ∀ k : Nat, x ∈ runesGo t k → x ∈ t := by
  induction t with
  | nil => intro k h; simp [runesGo] at h
  | cons b t ih =>
    intro k hmem
    cases k with
    | zero =>
      rw [runesGo_start] at hmem
      rcases List.mem_cons.mp hmem with e | h
      · by_cases hb : b < 0x80
        · rw [decodeRune_ascii b t hb] at e
          simp [e]
        · have := decodeRune_ge b t (by omega)
          omega
      · exact List.mem_cons_of_mem _ (ih _ h)
    | succ k =>
      exact List.mem_cons_of_mem _ (ih k (by simpa [runesGo] using hmem))

/-! ## Lemmas on `toWKT` -/

theorem toWKT_single (p : Geometry) (q : Str) (h : ringPoly p = some q) :
    toWKT [p] = some (lit "MULTIPOLYGON(" ++ q ++ lit ")") := by
  simp [toWKT, toWKTLoop, h]

theorem toWKTLoop_polygons (g : List Geometry) (ps : List Str)
    (h : List.Forall₂ (fun r p => ringPoly r = some p) g ps) (wkt : Str) :
    toWKTLoop g wkt = some (wkt ++ ps.flatten) := by
  induction h generalizing wkt with
  | nil => simp [toWKTLoop]
  | cons hrp _ ih => simp [toWKTLoop, hrp, ih, List.append_assoc]

/-- The polygons of the rings are written one after the other, with nothing between them. -/
theorem toWKT_polygons (g : List Geometry) (ps : List Str)
    (h : List.Forall₂ (fun r p => ringPoly r = some p) g ps) :
    toWKT g = some (lit "MULTIPOLYGON(" ++ ps.flatten ++ lit ")") := by
  simp [toWKT, toWKTLoop_polygons g ps h]

/-- A ring whose decoding loop appended the points `ps`, each followed by `", "`. -/
theorem close_ring (ps : List Str) (hne : ps ≠ []) :
    sliceTo (lit "((" ++ (ps.map (fun p => p ++ lit ", ")).flatten)
      (((lit "((" ++ (ps.map (fun p => p ++ lit ", ")).flatten).length : Int) - 2)
      = some (lit "((" ++ Join ps (lit ", ")) := by
  rw [flatten_sep_eq_Join ps hne, ← List.append_assoc]
  exact sliceTo_append _ _ 2 (by decide)

theorem multipolygon_single (body : Str) :
    lit "MULTIPOLYGON(" ++ (lit "((" ++ body ++ lit "))") ++ lit ")"
      = lit "MULTIPOLYGON(((" ++ body ++ lit ")))" := by
  have h1 : lit "MULTIPOLYGON(((" = lit "MULTIPOLYGON(" ++ lit "((" := by decide
  have h2 : lit ")))" = lit "))" ++ lit ")" := by decide
  rw [h1, h2]
  simp [List.append_assoc]

theorem posListLoop_triples (pts : List (Str × Str × Str)) (i : Nat) (poly : Str)
    (hi : i % 3 = 0) :
    posListLoop (pts.map (fun p => [p.1, p.2.1, p.2.2])).flatten i poly
      = some (poly ++ (pts.map (fun p => (p.1 ++ lit " " ++ p.2.1) ++ lit ", ")).flatten) := by
  induction pts generalizing i poly with
  | nil => simp [posListLoop]
  | cons p pts ih =>
    have h1 : (i + 1) % 3 ≠ 0 := by omega
    have h2 : (i + 1 + 1) % 3 ≠ 0 := by omega
    have h3 : (i + 1 + 1 + 1) % 3 = 0 := by omega
    have hs : sliceTo (poly ++ p.1 ++ lit " " ++ p.2.1 ++ lit " ")
        (((poly ++ p.1 ++ lit " " ++ p.2.1 ++ lit " ").length : Int) - 1)
        = some (poly ++ p.1 ++ lit " " ++ p.2.1) :=
      sliceTo_append _ _ 1 (by decide)
    simp only [List.map_cons, List.flatten_cons, List.cons_append, List.nil_append,
      posListLoop, h1, h2, h3, ne_eq, not_false_eq_true, not_true_eq_false, if_true, if_false,
      hs]
    show posListLoop (pts.map (fun p => [p.1, p.2.1, p.2.2])).flatten (i + 1 + 1 + 1) _ = _
    rw [ih (i + 1 + 1 + 1) _ h3]
    simp [List.append_assoc]

theorem Join_two_ne_nil (a b : Str) (l : List Str) (sep : Str) (h : sep ≠ []) :
    Join (a :: b :: l) sep ≠ [] := by
  simp [Join, h]

/-- The polygon text of a ring given by a `posList` of groups of three tokens. -/
theorem ringPoly_of_posList (pts : List (Str × Str × Str)) (co : Str) (hne : pts ≠ [])
    (htok : ∀ p ∈ pts, ∀ t ∈ [p.1, p.2.1, p.2.2], t ≠ [] ∧ 0x20 ∉ t) :
    ringPoly ⟨[], Join (pts.map (fun p => [p.1, p.2.1, p.2.2])).flatten (lit " "), co⟩
      = some (lit "((" ++ Join (pts.map (fun p => p.1 ++ lit " " ++ p.2.1)) (lit ", ")
          ++ lit "))") := by
  have hts : ∀ t ∈ (pts.map (fun p => [p.1, p.2.1, p.2.2])).flatten, 0x20 ∉ t := by
    intro t ht
    simp only [List.mem_flatten, List.mem_map] at ht
    obtain ⟨l, ⟨p, hp, rfl⟩, htl⟩ := ht
    exact (htok p hp t htl).2
  have hnl : (pts.map (fun p => [p.1, p.2.1, p.2.2])).flatten ≠ [] := by
    cases pts with
    | nil => exact absurd rfl hne
    | cons p l => simp
  have hpl : Join (pts.map (fun p => [p.1, p.2.1, p.2.2])).flatten (lit " ") ≠ [] := by
    cases pts with
    | nil => exact absurd rfl hne
    | cons p l =>
      simp only [List.map_cons, List.flatten_cons, List.cons_append, List.nil_append]
      exact Join_two_ne_nil _ _ _ _ (by decide)
  have hsplit : Split (Join (pts.map (fun p => [p.1, p.2.1, p.2.2])).flatten (lit " ")) 0x20
      = (pts.map (fun p => [p.1, p.2.1, p.2.2])).flatten := by
    rw [lit_space]
    exact Split_Join 0x20 _ hnl hts
  have hps : pts.map (fun p => p.1 ++ lit " " ++ p.2.1) ≠ [] := by
    cases pts with
    | nil => exact absurd rfl hne
    | cons p l => simp
  have hloop := posListLoop_triples pts 0 (lit "((") rfl
  have hcl := close_ring _ hps
  simp only [List.map_map, Function.comp_def] at hcl
  simp only [ringPoly, List.length_nil, gt_iff_lt, Nat.lt_irrefl, if_false, hpl, ne_eq,
    not_false_eq_true, if_true, hsplit, hloop, hcl]

/-! ## The `pos` and `coordinates` encodings -/

theorem Split_removeWhitespaces (s : Str) (h : Fields s ≠ []) :
    Split (removeWhitespaces s) 0x20 = Fields s := by
  rw [removeWhitespaces, lit_space]
  exact Split_Join 0x20 _ h (fun t ht => Fields_no_space s t ht)

theorem Split_length_of_mem (sep : Nat) (t : Str) (h : sep ∈ t) : 2 ≤ (Split t sep).length := by
  induction t with
  | nil => simp at h
  | cons b t ih =>
    simp only [Split]
    by_cases hb : b = sep
    · have := Split_ne_nil t sep
      simp only [hb, if_true, List.length_cons]
      have : 0 < (Split t sep).length := List.length_pos.mpr this
      omega
    · have ht : sep ∈ t := by
        rcases List.mem_cons.mp h with e | e
        · exact absurd e.symm hb
        · exact e
      have := ih ht
      simp only [hb, if_false]
      split
      · rename_i e; rw [e] at this; simp at this
      · rename_i e; rw [e] at this; simpa using this

theorem two_fields (l : List Str) (h : 2 ≤ l.length) :
    l[0]? = some (l.getD 0 []) ∧ l[1]? = some (l.getD 1 []) := by
  rcases l with _ | ⟨a, _ | ⟨b, l⟩⟩ <;> simp at h ⊢

theorem posLoop_ok (pos : List Str) (h : ∀ s ∈ pos, 2 ≤ (Fields s).length) (poly : Str) :
    posLoop pos poly = some (poly ++ (pos.map (fun s =>
      ((Fields s).getD 0 [] ++ lit " " ++ (Fields s).getD 1 []) ++ lit ", ")).flatten) := by
  induction pos generalizing poly with
  | nil => simp [posLoop]
  | cons s pos ih =>
    have hs : 2 ≤ (Fields s).length := h s (by simp)
    have hne : Fields s ≠ [] := by
      intro e; rw [e] at hs; simp at hs
    have h2 := two_fields (Fields s) hs
    simp only [posLoop, Split_removeWhitespaces s hne, h2.1, h2.2]
    rw [ih (fun t ht => h t (List.mem_cons_of_mem _ ht))]
    simp [List.append_assoc]

theorem coordLoop_ok (ts : List Str) (h : ∀ t ∈ ts, 0x2C ∈ t) (poly : Str) :
    coordLoop ts poly = some (poly ++ (ts.map (fun t =>
      ((Split t 0x2C).getD 0 [] ++ lit " " ++ (Split t 0x2C).getD 1 []) ++ lit ", ")).flatten) := by
  induction ts generalizing poly with
  | nil => simp [coordLoop]
  | cons t ts ih =>
    have h2 := two_fields (Split t 0x2C) (Split_length_of_mem 0x2C t (h t (by simp)))
    simp only [coordLoop, h2.1, h2.2]
    rw [ih (fun u hu => h u (List.mem_cons_of_mem _ hu))]
    simp [List.append_assoc]

/-- The polygon text of a ring given by `pos` tokens of at least two fields each. -/
theorem ringPoly_of_pos (pos : List Str) (pl co : Str) (hne : pos ≠ [])
    (h : ∀ s ∈ pos, 2 ≤ (Fields s).length) :
    ringPoly ⟨pos, pl, co⟩
      = some (lit "((" ++ Join (pos.map (fun s =>
          (Fields s).getD 0 [] ++ lit " " ++ (Fields s).getD 1 [])) (lit ", ") ++ lit "))") := by
  have hps : pos.map (fun s => (Fields s).getD 0 [] ++ lit " " ++ (Fields s).getD 1 []) ≠ [] := by
    cases pos with
    | nil => exact absurd rfl hne
    | cons p l => simp
  have hloop := posLoop_ok pos h (lit "((")
  have hcl := close_ring _ hps
  simp only [List.map_map, Function.comp_def] at hcl
  have hlen : pos.length > 0 := List.length_pos.mpr hne
  simp only [ringPoly, hlen, if_true, hloop, hcl]

theorem Fields_nil : Fields [] = [] := by decide

/-- The polygon text of a ring given by a `coordinates` string whose tokens all hold a
comma. -/
theorem ringPoly_of_coordinates (c : Str) (hne : Fields c ≠ [])
    (h : ∀ t ∈ Fields c, 0x2C ∈ t) :
    ringPoly ⟨[], [], c⟩
      = some (lit "((" ++ Join ((Fields c).map (fun t =>
          (Split t 0x2C).getD 0 [] ++ lit " " ++ (Split t 0x2C).getD 1 [])) (lit ", ")
          ++ lit "))") := by
  have hc : c ≠ [] := by
    intro e; rw [e] at hne; exact hne Fields_nil
  have hps : (Fields c).map (fun t =>
      (Split t 0x2C).getD 0 [] ++ lit " " ++ (Split t 0x2C).getD 1 []) ≠ [] := by
    intro e; exact hne (List.map_eq_nil_iff.mp e)
  have hloop := coordLoop_ok (Fields c) h (lit "((")
  have hcl := close_ring _ hps
  simp only [List.map_map, Function.comp_def] at hcl
  simp only [ringPoly, List.length_nil, gt_iff_lt, Nat.lt_irrefl, if_false, ne_eq,
    not_true_eq_false, hc, not_false_eq_true, if_true, Split_removeWhitespaces c hne,
    hloop, hcl]

/-! ## The three encodings of the same points -/

theorem lit_comma : lit "," = [0x2C] := by decide

/-- The fields of two tokens with a space between them. -/
theorem Fields_pair (x y : Str) (hx : x ≠ [] ∧ ∀ r ∈ runes x, IsSpace r = false)
    (hy : y ≠ [] ∧ ∀ r ∈ runes y, IsSpace r = false) :
    Fields (x ++ lit " " ++ y) = [x, y] := by
  have := FieldsFunc_Join IsSpace 0x20 (by decide) (by decide) [x, y]
    (by
      intro t ht
      rcases List.mem_cons.mp ht with rfl | ht
      · exact hx
      · rcases List.mem_cons.mp ht with rfl | ht
        · exact hy
        · simp at ht)
  simpa [Join, Fields, lit_space] using this

/-- A token of the form `x,y` has no whitespace when `x` and `y` have none. -/
theorem runes_comma_pair (x y : Str) (hx : ∀ r ∈ runes x, IsSpace r = false)
    (hy : ∀ r ∈ runes y, IsSpace r = false) :
    ∀ r ∈ runes (x ++ lit "," ++ y), IsSpace r = false := by
  intro r hr
  rw [lit_comma, List.append_assoc, List.singleton_append,
    runes_append_ascii 0x2C (by decide)] at hr
  rcases List.mem_append.mp hr with h | h
  · exact hx r h
  · rcases List.mem_cons.mp h with rfl | h
    · decide
    · exact hy r h

theorem Split_comma_pair (x y : Str) (hx : 0x2C ∉ x) (hy : 0x2C ∉ y) :
    Split (x ++ lit "," ++ y) 0x2C = [x, y] := by
  rw [lit_comma, List.append_assoc, List.singleton_append, Split_append_sep 0x2C x y hx,
    Split_of_not_mem 0x2C y hy]

theorem no_space_byte (t : Str) (h : ∀ r ∈ runes t, IsSpace r = false) : 0x20 ∉ t := by
  intro hmem
  have := h 0x20 (mem_runesGo_of_mem 0x20 (by decide) t 0 trivial hmem)
  exact absurd this (by decide)

/-! ## Lemmas on the pattern of `transform` -/

theorem matchBody_ok (body rest : Str) (h1 : 0x29 ∉ body) (h2 : 0x0A ∉ body) :
    matchBody (body ++ 0x29 :: 0x29 :: rest) = some (body ++ [0x29, 0x29]) := by
  induction body with
  | nil => simp [matchBody]
  | cons b body ih =>
    have hb1 : b ≠ 0x29 := fun e => h1 (by simp [e])
    have hb2 : b ≠ 0x0A := fun e => h2 (by simp [e])
    have := ih (fun e => h1 (List.mem_cons_of_mem _ e)) (fun e => h2 (List.mem_cons_of_mem _ e))
    simp [matchBody, hb1, hb2, this]

theorem matchAt_ok (body rest : Str) (h1 : 0x29 ∉ body) (h2 : 0x0A ∉ body) :
    matchAt (0x28 :: 0x28 :: (body ++ 0x29 :: 0x29 :: rest))
      = some (0x28 :: 0x28 :: (body ++ [0x29, 0x29])) := by
  simp [matchAt, matchBody_ok body rest h1 h2]

theorem matchAt_none (b : Nat) (s : Str) (h : b ≠ 0x28) : matchAt (b :: s) = none := by
  unfold matchAt
  split
  · rename_i e
    simp only [List.cons.injEq] at e
    exact absurd e.1 h
  · rfl

theorem findAllGo_skip (u rest : Str) : findAllGo (u ++ rest) u.length = findAllGo rest 0 := by
  induction u with
  | nil => rfl
  | cons b u ih => simpa [findAllGo] using ih

theorem findAllGo_nomatch (pre rest : Str) (h : 0x28 ∉ pre) :
    findAllGo (pre ++ rest) 0 = findAllGo rest 0 := by
  induction pre with
  | nil => rfl
  | cons b pre ih =>
    have hb : b ≠ 0x28 := fun e => h (by simp [e])
    have := ih (fun e => h (List.mem_cons_of_mem _ e))
    simp [findAllGo, matchAt_none b _ hb, this]

theorem findAllGo_match (m rest : Str) (hne : m ≠ []) (hm : matchAt (m ++ rest) = some m) :
    findAllGo (m ++ rest) 0 = m :: findAllGo rest 0 := by
  cases m with
  | nil => exact absurd rfl hne
  | cons b m =>
    rw [List.cons_append] at hm ⊢
    simp only [findAllGo, hm, List.length_cons, Nat.add_sub_cancel]
    rw [findAllGo_skip]

theorem lit_open2 : lit "((" = [0x28, 0x28] := by decide

theorem lit_close2 : lit "))" = [0x29, 0x29] := by decide

theorem Join_cons_flatten (a : Str) (l : List Str) (sep : Str) :
    Join (a :: l) sep = a ++ (l.map (fun b => sep ++ b)).flatten := by
  induction l generalizing a with
  | nil => simp [Join]
  | cons b l ih => simp [Join, ih b, List.append_assoc]

/-- The matches in the text after the first polygon: every further polygon, in order. -/
theorem findAllGo_tail (bs : List Str) (h : ∀ b ∈ bs, 0x29 ∉ b ∧ 0x0A ∉ b) :
    findAllGo ((bs.map (fun b => lit ", " ++ (lit "((" ++ b ++ lit "))"))).flatten ++ lit ")") 0
      = bs.map (fun b => lit "((" ++ b ++ lit "))") := by
  induction bs with
  | nil => decide
  | cons b bs ih =>
    have hb := h b (by simp)
    have := ih (fun c hc => h c (List.mem_cons_of_mem _ hc))
    simp only [List.map_cons, List.flatten_cons, List.append_assoc]
    rw [findAllGo_nomatch (lit ", ") _ (by decide)]
    have hm := matchAt_ok b
      ((bs.map (fun b => lit ", " ++ (lit "((" ++ b ++ lit "))"))).flatten ++ lit ")") hb.1 hb.2
    have e1 : lit "((" ++ (b ++ (lit "))" ++
        ((bs.map (fun b => lit ", " ++ (lit "((" ++ (b ++ lit "))")))).flatten ++ lit ")")))
        = (lit "((" ++ (b ++ lit "))")) ++
          ((bs.map (fun b => lit ", " ++ (lit "((" ++ b ++ lit "))"))).flatten ++ lit ")") := by
      simp [List.append_assoc]
    rw [e1, findAllGo_match _ _ (by simp [lit_open2])
      (by simpa [lit_open2, lit_close2, List.append_assoc] using hm), this]
    simp only [List.append_assoc]

/-- The matches of the pattern in a well-formed text: the first one starts at the parenthesis
that follows `MULTIPOLYGON`. -/
theorem FindAllString_wellformed (b : Str) (bs : List Str)
    (h : ∀ c ∈ b :: bs, 0x28 ∉ c ∧ 0x29 ∉ c ∧ 0x0A ∉ c) :
    FindAllString (lit "MULTIPOLYGON(" ++
        Join ((b :: bs).map (fun b => lit "((" ++ b ++ lit "))")) (lit ", ") ++ lit ")")
      = (lit "(" ++ (lit "((" ++ b ++ lit "))")) :: bs.map (fun b => lit "((" ++ b ++ lit "))") := by
  have hb := h b (by simp)
  have htail := findAllGo_tail bs (fun c hc =>
    ⟨(h c (List.mem_cons_of_mem _ hc)).2.1, (h c (List.mem_cons_of_mem _ hc)).2.2⟩)
  have hpre : lit "MULTIPOLYGON(" = lit "MULTIPOLYGON" ++ lit "(" := by decide
  have hm := matchAt_ok (0x28 :: b)
    ((bs.map (fun b => lit ", " ++ (lit "((" ++ b ++ lit "))"))).flatten ++ lit ")")
    (by simp [hb.2.1]) (by simp [hb.2.2])
  have e1 : lit "MULTIPOLYGON(" ++
        Join ((b :: bs).map (fun b => lit "((" ++ b ++ lit "))")) (lit ", ") ++ lit ")"
      = lit "MULTIPOLYGON" ++ ((lit "(" ++ (lit "((" ++ b ++ lit "))")) ++
          ((bs.map (fun b => lit ", " ++ (lit "((" ++ b ++ lit "))"))).flatten ++ lit ")")) := by
    rw [hpre, List.map_cons, Join_cons_flatten, List.map_map]
    simp [List.append_assoc, Function.comp_def]
  have hl : lit "(" = [0x28] := by decide
  rw [FindAllString, e1, findAllGo_nomatch (lit "MULTIPOLYGON") _ (by decide),
    findAllGo_match _ _ (by simp [hl])
      (by simpa [hl, lit_open2, lit_close2, List.append_assoc] using hm), htail]

/-! ## Lemmas on `transform` -/

theorem dropWhile_append_all (p : Nat → Bool) (pre l : Str) (h : ∀ x ∈ pre, p x = true) :
    (pre ++ l).dropWhile p = l.dropWhile p := by
  induction pre with
  | nil => rfl
  | cons b pre ih =>
    simp [List.dropWhile, h b (by simp), ih (fun x hx => h x (List.mem_cons_of_mem _ hx))]

theorem dropWhile_all (p : Nat → Bool) (l : Str) (h : ∀ x ∈ l, p x = true) :
    l.dropWhile p = [] := by
  simpa using dropWhile_append_all p l [] h

theorem dropWhile_keep (p : Nat → Bool) (b l : Str) (hne : b ≠ [])
    (h : ∀ x ∈ b, p x = false) : (b ++ l).dropWhile p = b ++ l := by
  cases b with
  | nil => exact absurd rfl hne
  | cons x b => simp [List.dropWhile, h x (by simp)]

/-- `Trim` takes the parentheses off a polygon text. -/
theorem Trim_body (cut pre post b : Str) (hpre : ∀ x ∈ pre, cut.contains x = true)
    (hpost : ∀ x ∈ post, cut.contains x = true) (hne : b ≠ [])
    (hb : ∀ x ∈ b, cut.contains x = false) : Trim (pre ++ b ++ post) cut = b := by
  have h1 : (pre ++ b ++ post).dropWhile (fun x => cut.contains x) = b ++ post := by
    rw [List.append_assoc, dropWhile_append_all _ pre _ hpre, dropWhile_keep _ b post hne hb]
  have h2 : (b ++ post).reverse.dropWhile (fun x => cut.contains x) = b.reverse := by
    rw [List.reverse_append, dropWhile_append_all _ post.reverse _
      (fun x hx => hpost x (List.mem_reverse.mp hx))]
    have := dropWhile_keep (fun x => cut.contains x) b.reverse [] (by simpa using hne)
      (fun x hx => hb x (List.mem_reverse.mp hx))
    simpa using this
  rw [Trim, h1, h2, List.reverse_reverse]

/-- The comma-separated pieces of a ring body: every pair but the first keeps the space that
follows the comma. -/
theorem Split_body (a : Str) (l : List Str) (h : ∀ t ∈ a :: l, 0x2C ∉ t) :
    Split (Join (a :: l) (lit ", ")) 0x2C = a :: l.map (fun b => lit " " ++ b) := by
  rw [Join_cons_flatten]
  induction l generalizing a with
  | nil => simpa using Split_of_not_mem 0x2C a (h a (by simp))
  | cons b l ih =>
    have ha := h a (by simp)
    have hb : 0x2C ∉ lit " " ++ b := by
      have := h b (by simp)
      simp [lit_space, this]
    have := ih (lit " " ++ b) (by
      intro t ht
      rcases List.mem_cons.mp ht with rfl | ht
      · exact hb
      · exact h t (List.mem_cons_of_mem _ (List.mem_cons_of_mem _ ht)))
    simp only [List.map_cons, List.flatten_cons, lit_comma_space, List.cons_append,
      List.nil_append, List.append_assoc] at this ⊢
    rw [Split_append_sep 0x2C a _ ha]
    simp only [lit_space, List.cons_append, List.nil_append] at this ⊢
    rw [this]

theorem fastSplit_runes (t : Str) (h : 0x20 ∉ t) : ∀ r ∈ runes t, fastSplit r = false := by
  intro r hr
  by_cases e : r = 0x20
  · subst e
    exact absurd (mem_of_mem_runesGo 0x20 (by decide) t 0 hr) h
  · simp [fastSplit, e]

/-- The fields that `transform` takes from a coordinate pair, with or without a space before
it. -/
theorem FieldsFunc_pair (x y : Str) (hx : x ≠ [] ∧ 0x20 ∉ x) (hy : y ≠ [] ∧ 0x20 ∉ y) :
    FieldsFunc (x ++ lit " " ++ y) fastSplit = [x, y] ∧
    FieldsFunc (lit " " ++ (x ++ lit " " ++ y)) fastSplit = [x, y] := by
  have h1 : FieldsFunc (x ++ lit " " ++ y) fastSplit = [x, y] := by
    have := FieldsFunc_Join fastSplit 0x20 (by decide) (by decide) [x, y]
      (by
        intro t ht
        rcases List.mem_cons.mp ht with rfl | ht
        · exact ⟨hx.1, fastSplit_runes _ hx.2⟩
        · rcases List.mem_cons.mp ht with rfl | ht
          · exact ⟨hy.1, fastSplit_runes _ hy.2⟩
          · simp at ht)
    simpa [Join, lit_space] using this
  refine ⟨h1, ?_⟩
  rw [lit_space] at h1 ⊢
  rw [List.singleton_append, FieldsFunc_sep_cons fastSplit 0x20 (by decide) (by decide), h1]

theorem pairLoop_ok {F : Type} (num : Numeric F) (epsg : Str) (cs : List Str)
    (ps : List (Str × Str))
    (h : List.Forall₂ (fun c p => FieldsFunc c fastSplit = [p.1, p.2]) cs ps) (poly : Str) :
    pairLoop num epsg cs poly = some (poly ++
      (ps.map (fun p => reprojectPair num epsg p.1 p.2 ++ lit ", ")).flatten) := by
  induction h generalizing poly with
  | nil => simp [pairLoop]
  | cons hcp _ ih =>
    simp only [pairLoop, hcp]
    simp [ih, List.append_assoc]

theorem mem_Join (x : Nat) (l : List Str) (sep : Str) (h : x ∈ Join l sep) :
    x ∈ sep ∨ ∃ t ∈ l, x ∈ t := by
  induction l with
  | nil => simp [Join] at h
  | cons a l ih =>
    cases l with
    | nil => exact Or.inr ⟨a, by simp, by simpa [Join] using h⟩
    | cons b l =>
      simp only [Join, List.mem_append] at h
      rcases h with (h | h) | h
      · exact Or.inr ⟨a, by simp, h⟩
      · exact Or.inl h
      · rcases ih h with h | ⟨t, ht, hx⟩
        · exact Or.inl h
        · exact Or.inr ⟨t, List.mem_cons_of_mem _ ht, hx⟩

/-- A ring body holds a byte only if one of its tokens or the separators `" "`, `", "` do. -/
theorem mem_body (x : Nat) (r : List (Str × Str))
    (h : x ∈ Join (r.map (fun p => p.1 ++ lit " " ++ p.2)) (lit ", ")) :
    x = 0x20 ∨ x = 0x2C ∨ ∃ p ∈ r, x ∈ p.1 ∨ x ∈ p.2 := by
  rcases mem_Join x _ _ h with h | ⟨t, ht, hx⟩
  · simp [lit_comma_space] at h
    rcases h with h | h
    · exact Or.inr (Or.inl h)
    · exact Or.inl h
  · obtain ⟨p, hp, rfl⟩ := List.mem_map.mp ht
    simp only [List.mem_append, lit_space, List.mem_singleton] at hx
    rcases hx with (hx | hx) | hx
    · exact Or.inr (Or.inr ⟨p, hp, Or.inl hx⟩)
    · exact Or.inl hx
    · exact Or.inr (Or.inr ⟨p, hp, Or.inr hx⟩)

theorem ringLoop_ok {F : Type} (num : Numeric F) (epsg : Str) (ms : List Str)
    (rs : List (List (Str × Str)))
    (hm : List.Forall₂ (fun m r =>
      Trim m (lit "()") = Join (r.map (fun p => p.1 ++ lit " " ++ p.2)) (lit ", ")) ms rs)
    (hr : ∀ r ∈ rs, r ≠ [])
    (htok : ∀ r ∈ rs, ∀ p ∈ r, ∀ t ∈ [p.1, p.2], t ≠ [] ∧ 0x20 ∉ t ∧ 0x2C ∉ t)
    (wkt : Str) :
    ringLoop num epsg ms wkt = some (wkt ++ (rs.map (fun r =>
      (lit "((" ++ Join (r.map (fun p => reprojectPair num epsg p.1 p.2)) (lit ", ")
        ++ lit "))") ++ lit ", ")).flatten) := by
  induction hm generalizing wkt with
  | nil => simp [ringLoop]
  | @cons m r ms rs hmr _ ih =>
    have hrne : r ≠ [] := hr r (by simp)
    have ht : ∀ p ∈ r, ∀ t ∈ [p.1, p.2], t ≠ [] ∧ 0x20 ∉ t ∧ 0x2C ∉ t := htok r (by simp)
    obtain ⟨p, l, rfl⟩ : ∃ p l, r = p :: l := by
      cases r with
      | nil => exact absurd rfl hrne
      | cons p l => exact ⟨p, l, rfl⟩
    have hcomma : ∀ t ∈ (p :: l).map (fun p => p.1 ++ lit " " ++ p.2), 0x2C ∉ t := by
      intro t htm
      obtain ⟨q, hq, rfl⟩ := List.mem_map.mp htm
      have h1 := (ht q hq q.1 (by simp)).2.2
      have h2 := (ht q hq q.2 (by simp)).2.2
      simp [lit_space, h1, h2]
    have hsplit := Split_body (p.1 ++ lit " " ++ p.2) (l.map (fun p => p.1 ++ lit " " ++ p.2))
      (by simpa using hcomma)
    have hpair : ∀ q ∈ p :: l,
        FieldsFunc (q.1 ++ lit " " ++ q.2) fastSplit = [q.1, q.2] ∧
        FieldsFunc (lit " " ++ (q.1 ++ lit " " ++ q.2)) fastSplit = [q.1, q.2] := fun q hq =>
      FieldsFunc_pair q.1 q.2
        ⟨(ht q hq q.1 (by simp)).1, (ht q hq q.1 (by simp)).2.1⟩
        ⟨(ht q hq q.2 (by simp)).1, (ht q hq q.2 (by simp)).2.1⟩
    have hf2 : List.Forall₂ (fun c q => FieldsFunc c fastSplit = [q.1, q.2])
        ((p.1 ++ lit " " ++ p.2) ::
          (l.map (fun p => p.1 ++ lit " " ++ p.2)).map (fun b => lit " " ++ b)) (p :: l) := by
      refine List.Forall₂.cons (hpair p (by simp)).1 ?_
      rw [List.map_map, List.forall₂_map_left_iff]
      apply List.forall₂_same.mpr
      intro q hq
      exact (hpair q (List.mem_cons_of_mem _ hq)).2
    have hloop := pairLoop_ok num epsg _ _ hf2 (lit "((")
    have hps : (p :: l).map (fun p => reprojectPair num epsg p.1 p.2) ≠ [] := by simp
    have hcl := close_ring _ hps
    simp only [List.map_map, Function.comp_def] at hcl
    have hsplit2 : Split (Trim m (lit "()")) 0x2C = (p.1 ++ lit " " ++ p.2) ::
        (l.map (fun p => p.1 ++ lit " " ++ p.2)).map (fun b => lit " " ++ b) := by
      rw [hmr]; exact hsplit
    simp only [ringLoop, hsplit2, hloop, hcl]
    rw [ih (fun r hr1 => hr r (List.mem_cons_of_mem _ hr1))
      (fun r hr1 => htok r (List.mem_cons_of_mem _ hr1))]
    simp [List.append_assoc]

/-- The result of `transform` on a well-formed text: the text of the same shape with every
pair replaced by its formatted reprojection. -/
theorem transform_text {F : Type} (num : Numeric F) (epsg : Str)
    (rings : List (List (Str × Str))) (hne : rings ≠ []) (hring : ∀ r ∈ rings, r ≠ [])
    (htok : ∀ r ∈ rings, ∀ p ∈ r, ∀ t ∈ [p.1, p.2],
      t ≠ [] ∧ 0x20 ∉ t ∧ 0x2C ∉ t ∧ 0x28 ∉ t ∧ 0x29 ∉ t ∧ 0x0A ∉ t) :
    transform num
        (lit "MULTIPOLYGON(" ++
          Join (rings.map (fun r =>
            lit "((" ++ Join (r.map (fun p => p.1 ++ lit " " ++ p.2)) (lit ", ") ++ lit "))"))
            (lit ", ") ++ lit ")") epsg
      = some (lit "MULTIPOLYGON(" ++
          Join (rings.map (fun r =>
            lit "((" ++ Join (r.map (fun p => reprojectPair num epsg p.1 p.2)) (lit ", ")
              ++ lit "))")) (lit ", ") ++ lit ")") := by
  -- the bodies of the rings hold no parenthesis and no line feed, and are not empty
  have hbody : ∀ r ∈ rings, ∀ x ∈ Join (r.map (fun p => p.1 ++ lit " " ++ p.2)) (lit ", "),
      x ≠ 0x28 ∧ x ≠ 0x29 ∧ x ≠ 0x0A := by
    intro r hr x hx
    rcases mem_body x r hx with e | e | ⟨p, hp, e | e⟩
    · subst e; decide
    · subst e; decide
    · have := htok r hr p hp p.1 (by simp)
      refine ⟨?_, ?_, ?_⟩ <;> (intro e1; subst e1; simp_all)
    · have := htok r hr p hp p.2 (by simp)
      refine ⟨?_, ?_, ?_⟩ <;> (intro e1; subst e1; simp_all)
  have hbne : ∀ r ∈ rings, Join (r.map (fun p => p.1 ++ lit " " ++ p.2)) (lit ", ") ≠ [] := by
    intro r hr
    have h0 := hring r hr
    cases r with
    | nil => exact absurd rfl h0
    | cons p l =>
      have := (htok _ hr p (by simp) p.1 (by simp)).1
      rw [List.map_cons, Join_cons_flatten]
      simp [this]
  have htrim : ∀ (pre : Str), (∀ x ∈ pre, (lit "()").contains x = true) → ∀ r ∈ rings,
      Trim (pre ++ (lit "((" ++ Join (r.map (fun p => p.1 ++ lit " " ++ p.2)) (lit ", ")
        ++ lit "))")) (lit "()")
      = Join (r.map (fun p => p.1 ++ lit " " ++ p.2)) (lit ", ") := by
    intro pre hpre r hr
    have := Trim_body (lit "()") (pre ++ lit "((")
      (lit "))") (Join (r.map (fun p => p.1 ++ lit " " ++ p.2)) (lit ", "))
      (by
        intro x hx
        rcases List.mem_append.mp hx with h | h
        · exact hpre x h
        · simp [lit_open2] at h; subst h; decide)
      (by intro x hx; simp [lit_close2] at hx; subst hx; decide)
      (hbne r hr)
      (by
        intro x hx
        have := hbody r hr x hx
        have hl : lit "()" = [0x28, 0x29] := by decide
        simp [hl, this.1, this.2.1])
    simpa [List.append_assoc] using this
  obtain ⟨r, rs, rfl⟩ : ∃ r rs, rings = r :: rs := by
    cases rings with
    | nil => exact absurd rfl hne
    | cons r rs => exact ⟨r, rs, rfl⟩
  -- the matches of the pattern
  have hfind := FindAllString_wellformed
    (Join (r.map (fun p => p.1 ++ lit " " ++ p.2)) (lit ", "))
    (rs.map (fun r => Join (r.map (fun p => p.1 ++ lit " " ++ p.2)) (lit ", ")))
    (by
      intro c hc
      have : ∃ r1 ∈ r :: rs, c = Join (r1.map (fun p => p.1 ++ lit " " ++ p.2)) (lit ", ") := by
        rcases List.mem_cons.mp hc with rfl | hc
        · exact ⟨r, by simp, rfl⟩
        · obtain ⟨r1, h1, rfl⟩ := List.mem_map.mp hc
          exact ⟨r1, List.mem_cons_of_mem _ h1, rfl⟩
      obtain ⟨r1, h1, rfl⟩ := this
      exact ⟨fun h => (hbody r1 h1 _ h).1 rfl, fun h => (hbody r1 h1 _ h).2.1 rfl,
        fun h => (hbody r1 h1 _ h).2.2 rfl⟩)
  simp only [List.map_cons, List.map_map, Function.comp_def] at hfind
  -- every match, trimmed, is the body of its ring
  have hm : List.Forall₂ (fun m r =>
      Trim m (lit "()") = Join (r.map (fun p => p.1 ++ lit " " ++ p.2)) (lit ", "))
      ((lit "(" ++ (lit "((" ++ Join (r.map (fun p => p.1 ++ lit " " ++ p.2)) (lit ", ")
          ++ lit "))")) ::
        rs.map (fun r => lit "((" ++ Join (r.map (fun p => p.1 ++ lit " " ++ p.2)) (lit ", ")
          ++ lit "))")) (r :: rs) := by
    refine List.Forall₂.cons (htrim (lit "(") (by decide) r (by simp)) ?_
    rw [List.forall₂_map_left_iff]
    apply List.forall₂_same.mpr
    intro r1 h1
    simpa using htrim [] (by simp) r1 (List.mem_cons_of_mem _ h1)
  have hloop := ringLoop_ok num epsg _ _ hm hring
    (fun r1 h1 p hp t ht =>
      ⟨(htok r1 h1 p hp t ht).1, (htok r1 h1 p hp t ht).2.1, (htok r1 h1 p hp t ht).2.2.1⟩)
    (lit "MULTIPOLYGON(")
  have hps : (r :: rs).map (fun r =>
      lit "((" ++ Join (r.map (fun p => reprojectPair num epsg p.1 p.2)) (lit ", ")
        ++ lit "))") ≠ [] := by simp
  have hflat := flatten_sep_eq_Join _ hps
  simp only [List.map_map, Function.comp_def] at hflat
  have hcut : sliceTo (lit "MULTIPOLYGON(" ++ ((r :: rs).map (fun r =>
        (lit "((" ++ Join (r.map (fun p => reprojectPair num epsg p.1 p.2)) (lit ", ")
          ++ lit "))") ++ lit ", ")).flatten)
      (((lit "MULTIPOLYGON(" ++ ((r :: rs).map (fun r =>
        (lit "((" ++ Join (r.map (fun p => reprojectPair num epsg p.1 p.2)) (lit ", ")
          ++ lit "))") ++ lit ", ")).flatten).length : Int) - 2)
      = some (lit "MULTIPOLYGON(" ++ Join ((r :: rs).map (fun r =>
          lit "((" ++ Join (r.map (fun p => reprojectPair num epsg p.1 p.2)) (lit ", ")
            ++ lit "))")) (lit ", ")) := by
    rw [hflat, ← List.append_assoc]
    exact sliceTo_append _ _ 2 (by decide)
  simp only [List.map_cons] at hloop hcut
  simp only [transform, List.map_cons, hfind, hloop, hcut]

/-! ## `transform` on the matches of the pattern -/

/-- The bytes of a ring body are those of its tokens and of the separators: no parenthesis
and no line feed when the tokens have none. -/
theorem body_clean (r : List (Str × Str))
    (htok : ∀ p ∈ r, ∀ t ∈ [p.1, p.2], 0x28 ∉ t ∧ 0x29 ∉ t ∧ 0x0A ∉ t) :
    ∀ x ∈ Join (r.map (fun p => p.1 ++ lit " " ++ p.2)) (lit ", "),
      x ≠ 0x28 ∧ x ≠ 0x29 ∧ x ≠ 0x0A := by
  intro x hx
  rcases mem_body x r hx with e | e | ⟨p, hp, e | e⟩
  · subst e; decide
  · subst e; decide
  · have := htok p hp p.1 (by simp)
    refine ⟨?_, ?_, ?_⟩ <;> (intro e1; subst e1; simp_all)
  · have := htok p hp p.2 (by simp)
    refine ⟨?_, ?_, ?_⟩ <;> (intro e1; subst e1; simp_all)

theorem body_ne_nil (r : List (Str × Str)) (hne : r ≠ []) (htok : ∀ p ∈ r, p.1 ≠ []) :
    Join (r.map (fun p => p.1 ++ lit " " ++ p.2)) (lit ", ") ≠ [] := by
  cases r with
  | nil => exact absurd rfl hne
  | cons p l =>
    have := htok p (by simp)
    rw [List.map_cons, Join_cons_flatten]
    simp [this]

/-- `Trim` gives the body of a polygon text back, also with parentheses before it. -/
theorem Trim_ring (pre : Str) (hpre : ∀ x ∈ pre, (lit "()").contains x = true)
    (r : List (Str × Str)) (hne : r ≠ [])
    (htok : ∀ p ∈ r, ∀ t ∈ [p.1, p.2], t ≠ [] ∧ 0x28 ∉ t ∧ 0x29 ∉ t ∧ 0x0A ∉ t) :
    Trim (pre ++ (lit "((" ++ Join (r.map (fun p => p.1 ++ lit " " ++ p.2)) (lit ", ")
      ++ lit "))")) (lit "()")
      = Join (r.map (fun p => p.1 ++ lit " " ++ p.2)) (lit ", ") := by
  have hbody := body_clean r (fun p hp t ht => (htok p hp t ht).2)
  have hbne := body_ne_nil r hne (fun p hp => (htok p hp p.1 (by simp)).1)
  have := Trim_body (lit "()") (pre ++ lit "((")
    (lit "))") (Join (r.map (fun p => p.1 ++ lit " " ++ p.2)) (lit ", "))
    (by
      intro x hx
      rcases List.mem_append.mp hx with h | h
      · exact hpre x h
      · simp [lit_open2] at h; subst h; decide)
    (by intro x hx; simp [lit_close2] at hx; subst hx; decide)
    hbne
    (by
      intro x hx
      have := hbody x hx
      have hl : lit "()" = [0x28, 0x29] := by decide
      simp [hl, this.1, this.2.1])
  simpa [List.append_assoc] using this

/-- The result of `transform` when the matches of the pattern, trimmed, are the bodies of the
rings `rs`. -/
theorem transform_of_matches {F : Type} (num : Numeric F) (epsg s : Str) (ms : List Str)
    (rs : List (List (Str × Str))) (hfind : FindAllString s = ms)
    (hm : List.Forall₂ (fun m r =>
      Trim m (lit "()") = Join (r.map (fun p => p.1 ++ lit " " ++ p.2)) (lit ", ")) ms rs)
    (hne : rs ≠ []) (hr : ∀ r ∈ rs, r ≠ [])
    (htok : ∀ r ∈ rs, ∀ p ∈ r, ∀ t ∈ [p.1, p.2], t ≠ [] ∧ 0x20 ∉ t ∧ 0x2C ∉ t) :
    transform num s epsg
      = some (lit "MULTIPOLYGON(" ++
          Join (rs.map (fun r =>
            lit "((" ++ Join (r.map (fun p => reprojectPair num epsg p.1 p.2)) (lit ", ")
              ++ lit "))")) (lit ", ") ++ lit ")") := by
  have hloop := ringLoop_ok num epsg ms rs hm hr htok (lit "MULTIPOLYGON(")
  have hps : rs.map (fun r =>
      lit "((" ++ Join (r.map (fun p => reprojectPair num epsg p.1 p.2)) (lit ", ")
        ++ lit "))") ≠ [] := by
    intro e; exact hne (List.map_eq_nil_iff.mp e)
  have hflat := flatten_sep_eq_Join _ hps
  simp only [List.map_map, Function.comp_def] at hflat
  have hcut : sliceTo (lit "MULTIPOLYGON(" ++ (rs.map (fun r =>
        (lit "((" ++ Join (r.map (fun p => reprojectPair num epsg p.1 p.2)) (lit ", ")
          ++ lit "))") ++ lit ", ")).flatten)
      (((lit "MULTIPOLYGON(" ++ (rs.map (fun r =>
        (lit "((" ++ Join (r.map (fun p => reprojectPair num epsg p.1 p.2)) (lit ", ")
          ++ lit "))") ++ lit ", ")).flatten).length : Int) - 2)
      = some (lit "MULTIPOLYGON(" ++ Join (rs.map (fun r =>
          lit "((" ++ Join (r.map (fun p => reprojectPair num epsg p.1 p.2)) (lit ", ")
            ++ lit "))")) (lit ", ")) := by
    rw [hflat, ← List.append_assoc]
    exact sliceTo_append _ _ 2 (by decide)
  simp only [transform, hfind, hloop, hcut]

/-- The matches in a text of polygons written one after the other with nothing between
them. -/
theorem findAllGo_concat (bs : List Str) (h : ∀ b ∈ bs, 0x29 ∉ b ∧ 0x0A ∉ b) :
    findAllGo ((bs.map (fun b => lit "((" ++ b ++ lit "))")).flatten ++ lit ")") 0
      = bs.map (fun b => lit "((" ++ b ++ lit "))") := by
  induction bs with
  | nil => decide
  | cons b bs ih =>
    have hb := h b (by simp)
    have := ih (fun c hc => h c (List.mem_cons_of_mem _ hc))
    have hm := matchAt_ok b
      ((bs.map (fun b => lit "((" ++ b ++ lit "))")).flatten ++ lit ")") hb.1 hb.2
    simp only [List.map_cons, List.flatten_cons, List.append_assoc]
    have e1 : lit "((" ++ (b ++ (lit "))" ++
        ((bs.map (fun b => lit "((" ++ (b ++ lit "))"))).flatten ++ lit ")")))
        = (lit "((" ++ (b ++ lit "))")) ++
          ((bs.map (fun b => lit "((" ++ b ++ lit "))")).flatten ++ lit ")") := by
      simp [List.append_assoc]
    rw [e1, findAllGo_match _ _ (by simp [lit_open2])
      (by simpa [lit_open2, lit_close2, List.append_assoc] using hm), this]
    simp only [List.append_assoc]

/-- The matches of the pattern in the text that `toWKT` writes: the first one starts at the
parenthesis that follows `MULTIPOLYGON`. -/
theorem FindAllString_concat (b : Str) (bs : List Str)
    (h : ∀ c ∈ b :: bs, 0x28 ∉ c ∧ 0x29 ∉ c ∧ 0x0A ∉ c) :
    FindAllString (lit "MULTIPOLYGON(" ++
        ((b :: bs).map (fun b => lit "((" ++ b ++ lit "))")).flatten ++ lit ")")
      = (lit "(" ++ (lit "((" ++ b ++ lit "))")) :: bs.map (fun b => lit "((" ++ b ++ lit "))") := by
  have hb := h b (by simp)
  have htail := findAllGo_concat bs (fun c hc =>
    ⟨(h c (List.mem_cons_of_mem _ hc)).2.1, (h c (List.mem_cons_of_mem _ hc)).2.2⟩)
  have hpre : lit "MULTIPOLYGON(" = lit "MULTIPOLYGON" ++ lit "(" := by decide
  have hm := matchAt_ok (0x28 :: b)
    ((bs.map (fun b => lit "((" ++ b ++ lit "))")).flatten ++ lit ")")
    (by simp [hb.2.1]) (by simp [hb.2.2])
  have e1 : lit "MULTIPOLYGON(" ++
        ((b :: bs).map (fun b => lit "((" ++ b ++ lit "))")).flatten ++ lit ")"
      = lit "MULTIPOLYGON" ++ ((lit "(" ++ (lit "((" ++ b ++ lit "))")) ++
          ((bs.map (fun b => lit "((" ++ b ++ lit "))")).flatten ++ lit ")")) := by
    rw [hpre]
    simp [List.append_assoc]
  have hl : lit "(" = [0x28] := by decide
  rw [FindAllString, e1, findAllGo_nomatch (lit "MULTIPOLYGON") _ (by decide),
    findAllGo_match _ _ (by simp [hl])
      (by simpa [hl, lit_open2, lit_close2, List.append_assoc] using hm), htail]

/-- The result of `transform` on the text that `toWKT` writes for well-formed rings: the
polygons are found although nothing separates them. -/
theorem transform_concat {F : Type} (num : Numeric F) (epsg : Str)
    (rings : List (List (Str × Str))) (hne : rings ≠ []) (hring : ∀ r ∈ rings, r ≠ [])
    (htok : ∀ r ∈ rings, ∀ p ∈ r, ∀ t ∈ [p.1, p.2],
      t ≠ [] ∧ 0x20 ∉ t ∧ 0x2C ∉ t ∧ 0x28 ∉ t ∧ 0x29 ∉ t ∧ 0x0A ∉ t) :
    transform num
        (lit "MULTIPOLYGON(" ++
          (rings.map (fun r =>
            lit "((" ++ Join (r.map (fun p => p.1 ++ lit " " ++ p.2)) (lit ", ") ++ lit "))")).flatten
          ++ lit ")") epsg
      = some (lit "MULTIPOLYGON(" ++
          Join (rings.map (fun r =>
            lit "((" ++ Join (r.map (fun p => reprojectPair num epsg p.1 p.2)) (lit ", ")
              ++ lit "))")) (lit ", ") ++ lit ")") := by
  have hclean : ∀ r ∈ rings, ∀ p ∈ r, ∀ t ∈ [p.1, p.2],
      t ≠ [] ∧ 0x28 ∉ t ∧ 0x29 ∉ t ∧ 0x0A ∉ t := fun r hr p hp t ht =>
    ⟨(htok r hr p hp t ht).1, (htok r hr p hp t ht).2.2.2.1, (htok r hr p hp t ht).2.2.2.2.1,
      (htok r hr p hp t ht).2.2.2.2.2⟩
  obtain ⟨r, rs, rfl⟩ : ∃ r rs, rings = r :: rs := by
    cases rings with
    | nil => exact absurd rfl hne
    | cons r rs => exact ⟨r, rs, rfl⟩
  have hfind := FindAllString_concat
    (Join (r.map (fun p => p.1 ++ lit " " ++ p.2)) (lit ", "))
    (rs.map (fun r => Join (r.map (fun p => p.1 ++ lit " " ++ p.2)) (lit ", ")))
    (by
      intro c hc
      have : ∃ r1 ∈ r :: rs, c = Join (r1.map (fun p => p.1 ++ lit " " ++ p.2)) (lit ", ") := by
        rcases List.mem_cons.mp hc with rfl | hc
        · exact ⟨r, by simp, rfl⟩
        · obtain ⟨r1, h1, rfl⟩ := List.mem_map.mp hc
          exact ⟨r1, List.mem_cons_of_mem _ h1, rfl⟩
      obtain ⟨r1, h1, rfl⟩ := this
      have hb := body_clean r1 (fun p hp t ht => (hclean r1 h1 p hp t ht).2)
      exact ⟨fun h => (hb _ h).1 rfl, fun h => (hb _ h).2.1 rfl, fun h => (hb _ h).2.2 rfl⟩)
  simp only [List.map_cons, List.map_map, Function.comp_def] at hfind
  have hm : List.Forall₂ (fun m r =>
      Trim m (lit "()") = Join (r.map (fun p => p.1 ++ lit " " ++ p.2)) (lit ", "))
      ((lit "(" ++ (lit "((" ++ Join (r.map (fun p => p.1 ++ lit " " ++ p.2)) (lit ", ")
          ++ lit "))")) ::
        rs.map (fun r => lit "((" ++ Join (r.map (fun p => p.1 ++ lit " " ++ p.2)) (lit ", ")
          ++ lit "))")) (r :: rs) := by
    refine List.Forall₂.cons
      (Trim_ring (lit "(") (by decide) r (hring r (by simp)) (hclean r (by simp))) ?_
    rw [List.forall₂_map_left_iff]
    apply List.forall₂_same.mpr
    intro r1 h1
    simpa using Trim_ring [] (by simp) r1 (hring r1 (List.mem_cons_of_mem _ h1))
      (hclean r1 (List.mem_cons_of_mem _ h1))
  exact transform_of_matches num epsg _ _ (r :: rs) (by simpa using hfind) hm hne hring
    (fun r1 h1 p hp t ht =>
      ⟨(htok r1 h1 p hp t ht).1, (htok r1 h1 p hp t ht).2.1, (htok r1 h1 p hp t ht).2.2.1⟩)

/-! ## The encoder followed by the reprojector -/

/-- The fields of three tokens with single spaces between them. -/
theorem Fields_triple (x y z : Str) (hx : x ≠ [] ∧ ∀ r ∈ runes x, IsSpace r = false)
    (hy : y ≠ [] ∧ ∀ r ∈ runes y, IsSpace r = false)
    (hz : z ≠ [] ∧ ∀ r ∈ runes z, IsSpace r = false) :
    Fields (x ++ lit " " ++ y ++ lit " " ++ z) = [x, y, z] := by
  have := FieldsFunc_Join IsSpace 0x20 (by decide) (by decide) [x, y, z]
    (by
      intro t ht
      simp only [List.mem_cons, List.mem_singleton, List.not_mem_nil, or_false] at ht
      rcases ht with rfl | rfl | rfl
      · exact hx
      · exact hy
      · exact hz)
  simpa [Join, Fields, lit_space] using this

theorem Split_comma_triple (x y z : Str) (hx : 0x2C ∉ x) (hy : 0x2C ∉ y) (hz : 0x2C ∉ z) :
    Split (x ++ lit "," ++ y ++ lit "," ++ z) 0x2C = [x, y, z] := by
  rw [lit_comma]
  simp only [List.append_assoc, List.singleton_append, List.cons_append, List.nil_append]
  rw [Split_append_sep 0x2C x _ hx, Split_append_sep 0x2C y z hy, Split_of_not_mem 0x2C z hz]

/-- The polygon text of a ring of `pos` tokens whose first two fields are the two values of
the points. -/
theorem ringPoly_pos_tokens (pts : List (Str × Str × Str)) (tok : Str × Str × Str → Str)
    (hne : pts ≠ [])
    (hf : ∀ p ∈ pts, ∃ rest, Fields (tok p) = p.1 :: p.2.1 :: rest) :
    ringPoly ⟨pts.map tok, [], []⟩ = some (lit "((" ++
      Join (pts.map (fun p => p.1 ++ lit " " ++ p.2.1)) (lit ", ") ++ lit "))") := by
  have hpne : pts.map tok ≠ [] := by
    intro e; exact hne (List.map_eq_nil_iff.mp e)
  rw [ringPoly_of_pos _ [] [] hpne (by
    intro s hs
    obtain ⟨p, hp, rfl⟩ := List.mem_map.mp hs
    obtain ⟨rest, hr⟩ := hf p hp
    rw [hr]; simp)]
  have : (pts.map tok).map (fun s =>
      (Fields s).getD 0 [] ++ lit " " ++ (Fields s).getD 1 [])
      = pts.map (fun p => p.1 ++ lit " " ++ p.2.1) := by
    rw [List.map_map]
    apply List.map_congr_left
    intro p hp
    obtain ⟨rest, hr⟩ := hf p hp
    show (Fields (tok p)).getD 0 [] ++ lit " " ++ (Fields (tok p)).getD 1 [] = _
    rw [hr]
    rfl
  rw [this]

/-- The polygon text of a ring of `coordinates` tokens, joined by single spaces, whose first
two comma-separated fields are the two values of the points. -/
theorem ringPoly_coordinates_tokens (pts : List (Str × Str × Str))
    (tok : Str × Str × Str → Str) (hne : pts ≠ [])
    (hws : ∀ p ∈ pts, tok p ≠ [] ∧ ∀ r ∈ runes (tok p), IsSpace r = false)
    (hs : ∀ p ∈ pts, ∃ rest, Split (tok p) 0x2C = p.1 :: p.2.1 :: rest) :
    ringPoly ⟨[], [], Join (pts.map tok) (lit " ")⟩ = some (lit "((" ++
      Join (pts.map (fun p => p.1 ++ lit " " ++ p.2.1)) (lit ", ") ++ lit "))") := by
  have hcne : pts.map tok ≠ [] := by
    intro e; exact hne (List.map_eq_nil_iff.mp e)
  have hfc : Fields (Join (pts.map tok) (lit " ")) = pts.map tok := by
    rw [lit_space]
    apply FieldsFunc_Join IsSpace 0x20 (by decide) (by decide)
    intro t ht
    obtain ⟨p, hp, rfl⟩ := List.mem_map.mp ht
    exact hws p hp
  rw [ringPoly_of_coordinates _ (by rw [hfc]; exact hcne) (by
    intro t ht
    rw [hfc] at ht
    obtain ⟨p, hp, rfl⟩ := List.mem_map.mp ht
    obtain ⟨rest, hr⟩ := hs p hp
    have h2 : 2 ≤ (Split (tok p) 0x2C).length := by rw [hr]; simp
    by_contra hc
    rw [Split_of_not_mem 0x2C _ hc] at h2
    simp at h2), hfc]
  have : (pts.map tok).map (fun t =>
      (Split t 0x2C).getD 0 [] ++ lit " " ++ (Split t 0x2C).getD 1 [])
      = pts.map (fun p => p.1 ++ lit " " ++ p.2.1) := by
    rw [List.map_map]
    apply List.map_congr_left
    intro p hp
    obtain ⟨rest, hr⟩ := hs p hp
    show (Split (tok p) 0x2C).getD 0 [] ++ lit " " ++ (Split (tok p) 0x2C).getD 1 [] = _
    rw [hr]
    rfl
  rw [this]

/-- The polygon text of a ring that holds the points `pts` in one encoding. -/
theorem ringPoly_encoded (g : Geometry) (pts : List (Str × Str × Str))
    (henc : EncodesPoints g pts) (hne : pts ≠ [])
    (htok : ∀ p ∈ pts, ∀ t ∈ [p.1, p.2.1, p.2.2],
      t ≠ [] ∧ (∀ r ∈ runes t, IsSpace r = false) ∧ 0x2C ∉ t) :
    ringPoly g = some (lit "((" ++
      Join (pts.map (fun p => p.1 ++ lit " " ++ p.2.1)) (lit ", ") ++ lit "))") := by
  have hx : ∀ p ∈ pts, p.1 ≠ [] ∧ (∀ r ∈ runes p.1, IsSpace r = false) ∧ 0x2C ∉ p.1 :=
    fun p hp => htok p hp p.1 (by simp)
  have hy : ∀ p ∈ pts, p.2.1 ≠ [] ∧ (∀ r ∈ runes p.2.1, IsSpace r = false) ∧ 0x2C ∉ p.2.1 :=
    fun p hp => htok p hp p.2.1 (by simp)
  have hz : ∀ p ∈ pts, p.2.2 ≠ [] ∧ (∀ r ∈ runes p.2.2, IsSpace r = false) ∧ 0x2C ∉ p.2.2 :=
    fun p hp => htok p hp p.2.2 (by simp)
  rcases henc with rfl | rfl | rfl | rfl | rfl
  · exact ringPoly_pos_tokens pts _ hne (fun p hp =>
      ⟨[], Fields_pair p.1 p.2.1 ⟨(hx p hp).1, (hx p hp).2.1⟩ ⟨(hy p hp).1, (hy p hp).2.1⟩⟩)
  · exact ringPoly_pos_tokens pts _ hne (fun p hp =>
      ⟨[p.2.2], Fields_triple p.1 p.2.1 p.2.2 ⟨(hx p hp).1, (hx p hp).2.1⟩
        ⟨(hy p hp).1, (hy p hp).2.1⟩ ⟨(hz p hp).1, (hz p hp).2.1⟩⟩)
  · exact ringPoly_of_posList pts [] hne (fun p hp t ht =>
      ⟨(htok p hp t ht).1, no_space_byte t (htok p hp t ht).2.1⟩)
  · exact ringPoly_coordinates_tokens pts _ hne
      (fun p hp => ⟨by simp [(hx p hp).1],
        runes_comma_pair p.1 p.2.1 (hx p hp).2.1 (hy p hp).2.1⟩)
      (fun p hp => ⟨[], Split_comma_pair p.1 p.2.1 (hx p hp).2.2 (hy p hp).2.2⟩)
  · exact ringPoly_coordinates_tokens pts _ hne
      (fun p hp => ⟨by simp [(hx p hp).1],
        runes_comma_pair (p.1 ++ lit "," ++ p.2.1) p.2.2
          (runes_comma_pair p.1 p.2.1 (hx p hp).2.1 (hy p hp).2.1) (hz p hp).2.1⟩)
      (fun p hp => ⟨[p.2.2], Split_comma_triple p.1 p.2.1 p.2.2 (hx p hp).2.2 (hy p hp).2.2
        (hz p hp).2.2⟩)

/-- `GeometryAsWKT` is `toWKT` of the first non-empty collection. -/
theorem GeometryAsWKT_selected (b : Building) (g : List Geometry)
    (h : [b.LOD0FootPrint, b.LOD1MultiSurface, b.LOD2MultiSurface, b.LOD3MultiSurface,
      b.LOD4MultiSurface].find? (fun c => decide (c ≠ [])) = some g) :
    GeometryAsWKT b = toWKT g ∧ g ≠ [] := by
  have hg : g ≠ [] := by
    have := List.find?_some h
    simpa using this
  refine ⟨?_, hg⟩
  obtain ⟨id, l0, l1, l2, l3, l4⟩ := b
  cases l0 <;> cases l1 <;> cases l2 <;> cases l3 <;> cases l4 <;>
    simp [List.find?] at h <;> subst h <;> simp [GeometryAsWKT]

theorem no_line_feed_byte (t : Str) (h : ∀ r ∈ runes t, IsSpace r = false) : 0x0A ∉ t := by
  intro hmem
  have := h 0x0A (mem_runesGo_of_mem 0x0A (by decide) t 0 trivial hmem)
  exact absurd this (by decide)

/-- The polygon texts of a list of rings that hold points in one encoding each. -/
theorem ringPoly_encoded_all (g : List Geometry) (ptss : List (List (Str × Str × Str)))
    (henc : List.Forall₂ EncodesPoints g ptss) (hk : ∀ pts ∈ ptss, pts ≠ [])
    (htok : ∀ pts ∈ ptss, ∀ p ∈ pts, ∀ t ∈ [p.1, p.2.1, p.2.2],
      t ≠ [] ∧ (∀ r ∈ runes t, IsSpace r = false) ∧ 0x2C ∉ t) :
    List.Forall₂ (fun r p => ringPoly r = some p) g
      (ptss.map (fun pts => lit "((" ++
        Join (pts.map (fun p => p.1 ++ lit " " ++ p.2.1)) (lit ", ") ++ lit "))")) := by
  induction henc with
  | nil => exact List.Forall₂.nil
  | @cons r pts g ptss hrp _ ih =>
    rw [List.map_cons]
    exact List.Forall₂.cons (ringPoly_encoded r pts hrp (hk pts (by simp)) (htok pts (by simp)))
      (ih (fun q hq => hk q (List.mem_cons_of_mem _ hq))
        (fun q hq => htok q (List.mem_cons_of_mem _ hq)))

/-! ## The numeric library in exact arithmetic: a formatted number reads back -/

theorem digitsValue_snoc (a : Str) (d : Nat) :
    digitsValue (a ++ [d + 48]) = digitsValue a * 10 + d := by
  simp [digitsValue, List.foldl_append]

theorem digitsText_spec (fuel : Nat) : ∀ n : Nat, n < fuel →
    digitsValue (digitsText fuel n) = n ∧
    (∀ b ∈ digitsText fuel n, 48 ≤ b ∧ b ≤ 57) ∧ digitsText fuel n ≠ [] := by
  induction fuel with
  | zero => intro n h; omega
  | succ fuel ih =>
    intro n h
    by_cases h10 : n < 10
    · simp only [digitsText, h10, if_true]
      refine ⟨by simp [digitsValue], ?_, by simp⟩
      intro b hb
      simp only [List.mem_singleton] at hb
      omega
    · have hlt : n / 10 < fuel := by omega
      obtain ⟨h1, h2, _⟩ := ih (n / 10) hlt
      simp only [digitsText, h10, if_false]
      refine ⟨?_, ?_, by simp⟩
      · rw [digitsValue_snoc, h1]; omega
      · intro b hb
        rcases List.mem_append.mp hb with hb | hb
        · exact h2 b hb
        · simp only [List.mem_singleton] at hb
          omega

theorem fixedText_digits (k : Nat) : ∀ n : Nat,
    (fixedText k n).length = k ∧ ∀ b ∈ fixedText k n, 48 ≤ b ∧ b ≤ 57 := by
  induction k with
  | zero => intro n; simp [fixedText]
  | succ k ih =>
    intro n
    obtain ⟨h1, h2⟩ := ih (n / 10)
    refine ⟨by simp [fixedText, h1], ?_⟩
    intro b hb
    simp only [fixedText] at hb
    rcases List.mem_append.mp hb with hb | hb
    · exact h2 b hb
    · simp only [List.mem_singleton] at hb
      omega

theorem fixedText_six_value (r : Nat) (h : r < 1000000) : digitsValue (fixedText 6 r) = r := by
  simp only [fixedText, List.nil_append, digitsValue_snoc]
  simp only [digitsValue, List.foldl_cons, List.foldl_nil]
  omega

theorem isDigits_of_all (s : Str) (hne : s ≠ []) (h : ∀ b ∈ s, 48 ≤ b ∧ b ≤ 57) :
    isDigits s = true := by
  cases s with
  | nil => exact absurd rfl hne
  | cons a s =>
    simp only [isDigits, List.isEmpty_cons, Bool.not_false, Bool.true_and, List.all_eq_true,
      Bool.and_eq_true, decide_eq_true_eq]
    exact h

theorem takeWhile_point (d fr : Str) (h : ∀ b ∈ d, 48 ≤ b ∧ b ≤ 57) :
    (d ++ 46 :: fr).takeWhile (fun b => b != 46) = d ∧
    (d ++ 46 :: fr).dropWhile (fun b => b != 46) = 46 :: fr := by
  induction d with
  | nil => simp [List.takeWhile, List.dropWhile]
  | cons a d ih =>
    have ha : a ≠ 46 := by have := h a (by simp); omega
    have hb : (a != 46) = true := by simp [ha]
    obtain ⟨h1, h2⟩ := ih (fun b hb => h b (List.mem_cons_of_mem _ hb))
    simp [List.takeWhile, List.dropWhile, hb, h1, h2]

theorem parseUnsignedParts_point (d fr : Str) (hd : d ≠ [])
    (hda : ∀ b ∈ d, 48 ≤ b ∧ b ≤ 57) (hf : fr ≠ []) (hfa : ∀ b ∈ fr, 48 ≤ b ∧ b ≤ 57) :
    parseUnsignedParts (d ++ 46 :: fr)
      = some (digitsValue d * 10 ^ fr.length + digitsValue fr, 10 ^ fr.length) := by
  obtain ⟨h1, h2⟩ := takeWhile_point d fr hda
  simp only [parseUnsignedParts, h1, h2, isDigits_of_all d hd hda, isDigits_of_all fr hf hfa,
    Bool.and_self, if_true]

theorem parseParts_digit (a : Nat) (s : Str) (ha : 48 ≤ a) :
    parseParts (a :: s) = (parseUnsignedParts (a :: s)).map (fun p => (false, p.1, p.2)) := by
  unfold parseParts
  split
  · rename_i e
    simp only [List.cons.injEq] at e
    omega
  · rename_i e
    simp only [List.cons.injEq] at e
    omega
  · rfl

/-- The text of a whole number of millionths reads back as that number. -/
theorem parseParts_formatMicro (n : Int) :
    parseParts (formatMicro n) = some (decide (n < 0), n.natAbs, 1000000) := by
  obtain ⟨hv, hall, hne⟩ := digitsText_spec (n.natAbs / 1000000 + 1) (n.natAbs / 1000000)
    (Nat.lt_succ_self _)
  obtain ⟨hlen, hfall⟩ := fixedText_digits 6 (n.natAbs % 1000000)
  have hfne : fixedText 6 (n.natAbs % 1000000) ≠ [] := by
    intro e; rw [e] at hlen; simp at hlen
  have hfv := fixedText_six_value (n.natAbs % 1000000) (Nat.mod_lt _ (by decide))
  have hparts := parseUnsignedParts_point _ _ hne hall hfne hfall
  rw [hlen, hv, hfv] at hparts
  have hsum : n.natAbs / 1000000 * 10 ^ 6 + n.natAbs % 1000000 = n.natAbs := by
    have := Nat.div_add_mod n.natAbs 1000000
    omega
  rw [hsum] at hparts
  have hpow : (10 : Nat) ^ 6 = 1000000 := by norm_num
  rw [hpow] at hparts
  by_cases hneg : n < 0
  · simp only [formatMicro, hneg, if_true, List.append_assoc, List.singleton_append,
      List.cons_append, List.nil_append, parseParts, hparts, Option.map_some', decide_True]
  · obtain ⟨a, d, hd⟩ : ∃ a d, digitsText (n.natAbs / 1000000 + 1) (n.natAbs / 1000000)
        = a :: d := by
      cases h : digitsText (n.natAbs / 1000000 + 1) (n.natAbs / 1000000) with
      | nil => exact absurd h hne
      | cons a d => exact ⟨a, d, rfl⟩
    have ha : 48 ≤ a := (hall a (by rw [hd]; simp)).1
    rw [hd] at hparts
    simp only [formatMicro, hneg, if_false, List.append_assoc, List.singleton_append,
      List.nil_append, hd, List.cons_append, decide_False]
    rw [parseParts_digit a _ ha]
    simp only [List.cons_append] at hparts
    rw [hparts]
    rfl

theorem parseDecimal_formatMicro (n : Int) :
    parseDecimal (formatMicro n) = some ((n : ℚ) / 1000000) := by
  simp only [parseDecimal, parseParts_formatMicro, Option.map_some', decide_eq_true_eq]
  congr 1
  have h2 : ((n.natAbs : ℕ) : ℚ) = |(n : ℚ)| := by
    rw [Nat.cast_natAbs, Int.cast_abs]
  by_cases hneg : n < 0
  · have hq : (n : ℚ) < 0 := by exact_mod_cast hneg
    simp only [hneg, if_true]
    rw [h2, abs_of_neg hq]
    norm_num
  · have hq : (0 : ℚ) ≤ (n : ℚ) := by exact_mod_cast not_lt.mp hneg
    simp only [hneg, if_false]
    rw [h2, abs_of_nonneg hq]
    norm_num

/-! ## Lemmas on the numeric step of `transform` -/

theorem map_congr_forall₂ {α β : Type} (R : α → α → Prop) (f : α → β) (l l1 : List α)
    (h : List.Forall₂ R l l1) (hf : ∀ a b, R a b → f a = f b) : l.map f = l1.map f := by
  induction h with
  | nil => rfl
  | cons hab _ ih => simp [hf _ _ hab, ih]

/-- The text of a pair depends on its two tokens only through the values of `ParseFloat`. -/
theorem reprojectPair_congr {F : Type} (num : Numeric F) (epsg a b a1 b1 : Str)
    (ha : num.ParseFloat a = num.ParseFloat a1) (hb : num.ParseFloat b = num.ParseFloat b1) :
    reprojectPair num epsg a b = reprojectPair num epsg a1 b1 := by
  simp only [reprojectPair, ha, hb]

theorem parseParts_examples :
    parseParts (lit "abc") = none ∧ parseParts (lit "0") = some (false, 0, 1) ∧
    parseParts (lit "1") = some (false, 1, 1) ∧ parseParts (lit "2") = some (false, 2, 1) ∧
    parseParts (lit "57.295780") = some (false, 57295780, 1000000) ∧
    parseParts (lit "1.000000") = some (false, 1000000, 1000000) := by
  decide

/-! ## The six-place format of a 64-bit number is within half a millionth of the number -/

theorem roundHalfEven_near (n d : Nat) (hd : 0 < d) :
    |((roundHalfEven n d : Nat) : ℚ) - (n : ℚ) / (d : ℚ)| ≤ 1 / 2 := by
  have hdq : (0 : ℚ) < (d : ℚ) := by exact_mod_cast hd
  have hn : (n : ℚ) = (d : ℚ) * ((n / d : Nat) : ℚ) + ((n % d : Nat) : ℚ) := by
    exact_mod_cast (Nat.div_add_mod n d).symm
  have key : (n : ℚ) / (d : ℚ) = ((n / d : Nat) : ℚ) + ((n % d : Nat) : ℚ) / (d : ℚ) := by
    rw [hn]
    field_simp
    ring
  rw [key, abs_le]
  unfold roundHalfEven
  generalize n / d = q
  generalize hr : n % d = r
  split_ifs with c1 c2 c3
  · have hc : 2 * (r : ℚ) < (d : ℚ) := by exact_mod_cast c1
    have h2 : (r : ℚ) / (d : ℚ) < 1 / 2 := by
      rw [div_lt_iff₀ hdq]
      linarith
    have h0 : (0 : ℚ) ≤ (r : ℚ) / (d : ℚ) := by positivity
    constructor <;> linarith
  · have hc : (d : ℚ) < 2 * (r : ℚ) := by exact_mod_cast c2
    have h2 : 1 / 2 < (r : ℚ) / (d : ℚ) := by
      rw [lt_div_iff₀ hdq]
      linarith
    have h1 : (r : ℚ) / (d : ℚ) < 1 := by
      rw [div_lt_one hdq]
      have : r < d := by rw [← hr]; exact Nat.mod_lt n hd
      exact_mod_cast this
    push_cast
    constructor <;> linarith
  · have hc : 2 * (r : ℚ) = (d : ℚ) := by
      have : 2 * r = d := by omega
      exact_mod_cast this
    have h2 : (r : ℚ) / (d : ℚ) = 1 / 2 := by
      rw [div_eq_iff hdq.ne']
      linarith
    constructor <;> linarith
  · have hc : 2 * (r : ℚ) = (d : ℚ) := by
      have : 2 * r = d := by omega
      exact_mod_cast this
    have h2 : (r : ℚ) / (d : ℚ) = 1 / 2 := by
      rw [div_eq_iff hdq.ne']
      linarith
    push_cast
    constructor <;> linarith

theorem scaleRound_near (n : Nat) (e : Int) :
    |((scaleRound n 1 e : Nat) : ℚ) - (n : ℚ) * (2 : ℚ) ^ e| ≤ 1 / 2 := by
  unfold scaleRound
  split_ifs with h
  · obtain ⟨t, rfl⟩ : ∃ t : Nat, e = (t : Int) := ⟨e.toNat, (Int.toNat_of_nonneg h).symm⟩
    have := roundHalfEven_near (n * 2 ^ t) 1 (by decide)
    rw [Int.toNat_natCast, zpow_natCast]
    push_cast at this
    simpa using this
  · obtain ⟨t, rfl⟩ : ∃ t : Nat, e = -(t : Int) := ⟨(-e).toNat, by omega⟩
    have := roundHalfEven_near n (1 * 2 ^ t) (by positivity)
    rw [neg_neg, Int.toNat_natCast, zpow_neg, zpow_natCast]
    push_cast at this
    simpa [div_eq_mul_inv] using this

theorem parseUnsignedParts_formatMicro (k : Nat) :
    parseUnsignedParts (formatMicro (k : Int)) = some (k, 1000000) := by
  obtain ⟨hv, hall, hne⟩ := digitsText_spec (k / 1000000 + 1) (k / 1000000)
    (Nat.lt_succ_self _)
  obtain ⟨hlen, hfall⟩ := fixedText_digits 6 (k % 1000000)
  have hfne : fixedText 6 (k % 1000000) ≠ [] := by
    intro e; rw [e] at hlen; simp at hlen
  have hfv := fixedText_six_value (k % 1000000) (Nat.mod_lt _ (by decide))
  have hparts := parseUnsignedParts_point _ _ hne hall hfne hfall
  rw [hlen, hv, hfv] at hparts
  have hsum : k / 1000000 * 10 ^ 6 + k % 1000000 = k := by
    have := Nat.div_add_mod k 1000000
    omega
  rw [hsum] at hparts
  have hpow : (10 : Nat) ^ 6 = 1000000 := by norm_num
  rw [hpow] at hparts
  have hnn : ¬ ((k : Int) < 0) := by omega
  simp only [formatMicro, hnn, if_false, Int.natAbs_ofNat, List.nil_append, List.append_assoc,
    List.singleton_append]
  exact hparts

/-- The text of a finite 64-bit number, read as a decimal number, is the number of millionths
that the format rounded to. -/
theorem decimalValue_FormatFloat6 (neg : Bool) (mant : Nat) (exp : Int) :
    decimalValue (FormatFloat6 (.fin neg mant exp))
      = some ((if neg then -((scaleRound (mant * 1000000) 1 exp : Nat) : ℚ)
          else ((scaleRound (mant * 1000000) 1 exp : Nat) : ℚ)) / 1000000) := by
  have hm : lit "-" = [45] := by decide
  cases neg with
  | true =>
    simp only [decimalValue, parseDecimal, FormatFloat6, if_true, hm, List.singleton_append,
      parseParts, parseUnsignedParts_formatMicro, Option.map_some']
    norm_num
  | false =>
    have h := parseDecimal_formatMicro ((scaleRound (mant * 1000000) 1 exp : Nat) : Int)
    simp only [decimalValue, FormatFloat6, List.nil_append, Bool.false_eq_true, if_false]
    rw [h, Int.cast_natCast]

/-- The rounding of `strconv.FormatFloat` with format `f` and precision 6: the text of a finite
number, read as a decimal number, is within `0.0000005` of the number. -/
theorem FormatFloat6_rounding (v : Float64) (q : ℚ) (h : v.value = some q) :
    ∃ o : ℚ, decimalValue (FormatFloat6 v) = some o ∧ |o - q| ≤ 1 / 2000000 := by
  cases v with
  | nan => simp [Float64.value] at h
  | inf neg => simp [Float64.value] at h
  | fin neg mant exp =>
    simp only [Float64.value, Option.some.injEq] at h
    refine ⟨_, decimalValue_FormatFloat6 neg mant exp, ?_⟩
    have hk := scaleRound_near (mant * 1000000) exp
    rw [abs_le] at hk ⊢
    push_cast at hk
    rw [← h]
    cases neg with
    | true =>
      simp only [if_true]
      constructor <;> linarith
    | false =>
      simp only [Bool.false_eq_true, if_false]
      constructor <;> linarith

/-! ## The numeric library on 64-bit numbers on examples -/

set_option maxRecDepth 4000 in
theorem float64_examples :
    ParseFloat64 (lit "1") = .fin false 4503599627370496 (-52) ∧
    RadToDeg64 (ParseFloat64 (lit "1")) = .fin false 8063664102031864 (-47) ∧
    FormatFloat6 (ParseFloat64 (lit "0.1")) = lit "0.100000" ∧
    FormatFloat6 (ParseFloat64 (lit "0.0078125")) = lit "0.007812" ∧
    FormatFloat6 (ParseFloat64 (lit "0.0234375")) = lit "0.023438" ∧
    FormatFloat6 (ParseFloat64 (lit "-0")) = lit "-0.000000" ∧
    FormatFloat6 (ParseFloat64 (lit "9007199254740993")) = lit "9007199254740992.000000" ∧
    FormatFloat6 (ParseFloat64 (lit "abc")) = lit "0.000000" := by
  decide

set_option maxRecDepth 4000 in
theorem ParseFloat64_forms :
    FormatFloat6 (ParseFloat64 (lit ".5")) = lit "0.500000" ∧
    FormatFloat6 (ParseFloat64 (lit "5.")) = lit "5.000000" ∧
    FormatFloat6 (ParseFloat64 (lit "1e2")) = lit "100.000000" ∧
    FormatFloat6 (ParseFloat64 (lit "1_000")) = lit "1000.000000" ∧
    FormatFloat6 (ParseFloat64 (lit "1__0")) = lit "0.000000" ∧
    FormatFloat6 (ParseFloat64 (lit "-0x1.8p1")) = lit "-3.000000" ∧
    FormatFloat6 (ParseFloat64 (lit "0x1")) = lit "0.000000" ∧
    FormatFloat6 (ParseFloat64 (lit "-infinity")) = lit "-Inf" ∧
    FormatFloat6 (ParseFloat64 (lit "nan")) = lit "NaN" ∧
    FormatFloat6 (ParseFloat64 (lit "-nan")) = lit "0.000000" := by
  decide

set_option maxRecDepth 2000 in
theorem reprojectPair_float64_examples :
    reprojectPair float64Numeric (lit "4326") (lit "1") (lit "2")
      = lit "57.295780 114.591559" ∧
    reprojectPair float64Numeric (lit "4326") (lit "Inf") (lit "2")
      = lit "+Inf 114.591559" := by
  decide

theorem decimalValue_examples :
    decimalValue (lit "1") = some 1 ∧ decimalValue (lit "2") = some 2 ∧
    decimalValue (lit "57.295780") = some (5729578 / 100000) ∧
    decimalValue (lit "114.591559") = some (114591559 / 1000000) ∧
    decimalValue (lit "+Inf") = none := by
  have p1 : parseParts (lit "1") = some (false, 1, 1) := by decide
  have p2 : parseParts (lit "2") = some (false, 2, 1) := by decide
  have p3 : parseParts (lit "57.295780") = some (false, 57295780, 1000000) := by decide
  have p4 : parseParts (lit "114.591559") = some (false, 114591559, 1000000) := by decide
  have p5 : parseParts (lit "+Inf") = none := by decide
  refine ⟨?_, ?_, ?_, ?_, ?_⟩
  · simp [decimalValue, parseDecimal, p1]
  · simp [decimalValue, parseDecimal, p2]
  · simp only [decimalValue, parseDecimal, p3, Option.map_some', Bool.false_eq_true, if_false]
    norm_num
  · simp only [decimalValue, parseDecimal, p4, Option.map_some', Bool.false_eq_true, if_false]
    norm_num
  · simp [decimalValue, parseDecimal, p5]

set_option maxRecDepth 2000 in
theorem RadToDeg64_examples :
    RadToDeg64 (ParseFloat64 (lit "1")) = .fin false 8063664102031864 (-47) ∧
    RadToDeg64 (ParseFloat64 (lit "2")) = .fin false 8063664102031864 (-46) ∧
    FormatFloat6 (.fin false 8063664102031864 (-47)) = lit "57.295780" ∧
    FormatFloat6 (.fin false 8063664102031864 (-46)) = lit "114.591559" := by
  decide

theorem value_examples :
    Float64.value (.fin false 8063664102031864 (-47))
      = some (8063664102031864 / 140737488355328) ∧
    Float64.value (.fin false 8063664102031864 (-46))
      = some (8063664102031864 / 70368744177664) := by
  constructor <;> simp only [Float64.value, Bool.false_eq_true, if_false] <;> norm_num

set_option maxRecDepth 2000 in
theorem ParseFloat64_examples :
    ParseFloat64 (lit "1") = .fin false 4503599627370496 (-52) ∧
    ParseFloat64 (lit "2") = .fin false 4503599627370496 (-51) ∧
    ParseFloat64 (lit "Inf") = .inf false := by
  decide

theorem ParseFloat64_value_examples :
    (ParseFloat64 (lit "1")).value = some 1 ∧ (ParseFloat64 (lit "2")).value = some 2 ∧
    (ParseFloat64 (lit "Inf")).value = none := by
  obtain ⟨h1, h2, h3⟩ := ParseFloat64_examples
  rw [h1, h2, h3]
  refine ⟨?_, ?_, rfl⟩ <;> simp only [Float64.value, Bool.false_eq_true, if_false] <;> norm_num

/-! ## The claims -/

/-- C1: `GeometryAsWKT` encodes the first non-empty collection in the order LOD0, LOD1, LOD2,
LOD3, LOD4; when `LOD0FootPrint` is non-empty the result does not depend on the other four
collections. -/
theorem GeometryAsWKT_first_nonempty (b : Building) (g : List Geometry)
    (h : [b.LOD0FootPrint, b.LOD1MultiSurface, b.LOD2MultiSurface, b.LOD3MultiSurface,
      b.LOD4MultiSurface].find? (fun c => decide (c ≠ [])) = some g) :
    GeometryAsWKT b = toWKT g ∧
    (b.LOD0FootPrint ≠ [] → ∀ l1 l2 l3 l4 : List Geometry,
      GeometryAsWKT ⟨b.ID, b.LOD0FootPrint, l1, l2, l3, l4⟩ = toWKT b.LOD0FootPrint) := by
  obtain ⟨id, l0, l1, l2, l3, l4⟩ := b
  constructor
  · cases l0 <;> cases l1 <;> cases l2 <;> cases l3 <;> cases l4 <;>
      simp [List.find?] at h <;> subst h <;> simp [GeometryAsWKT]
  · intro h0 m1 m2 m3 m4
    cases l0
    · exact absurd rfl h0
    · simp [GeometryAsWKT]

/-- Witness of C1: LOD0 and LOD1 are empty, LOD2 is the first non-empty collection and is the
one encoded, LOD3 is ignored; and with LOD0 non-empty the other four collections are ignored. -/
theorem GeometryAsWKT_first_nonempty_witness :
    GeometryAsWKT ⟨lit "b1", [], [], [⟨[lit "1 2"], [], []⟩], [⟨[lit "3 4"], [], []⟩], []⟩
      = toWKT [⟨[lit "1 2"], [], []⟩] ∧
    GeometryAsWKT ⟨lit "b2", [⟨[lit "1 2"], [], []⟩], [⟨[lit "3 4"], [], []⟩], [],
        [⟨[], lit "5 6 7", []⟩], []⟩
      = toWKT [⟨[lit "1 2"], [], []⟩] :=
  ⟨(GeometryAsWKT_first_nonempty
      ⟨lit "b1", [], [], [⟨[lit "1 2"], [], []⟩], [⟨[lit "3 4"], [], []⟩], []⟩
      [⟨[lit "1 2"], [], []⟩] (by decide)).1,
   (GeometryAsWKT_first_nonempty
      ⟨lit "b2", [⟨[lit "1 2"], [], []⟩], [], [], [], []⟩
      [⟨[lit "1 2"], [], []⟩] (by decide)).2 (by decide)
      [⟨[lit "3 4"], [], []⟩] [] [⟨[], lit "5 6 7", []⟩] []⟩

/-- C2: a ring given by `pos` tokens, each with at least two whitespace-separated fields, is
encoded as the first two fields of every token, in the order of the tokens, the field text
unchanged and further fields dropped. -/
theorem toWKT_explicit_positions (pos : List Str) (pl co : Str) (hne : pos ≠ [])
    (h : ∀ s ∈ pos, 2 ≤ (Fields s).length) :
    toWKT [⟨pos, pl, co⟩]
      = some (lit "MULTIPOLYGON(((" ++
          Join (pos.map (fun s => (Fields s).getD 0 [] ++ lit " " ++ (Fields s).getD 1 []))
            (lit ", ") ++ lit ")))") := by
  rw [toWKT_single _ _ (ringPoly_of_pos pos pl co hne h), multipolygon_single]

/-- Witness of C2: the three tokens of the first scenario; the last point is written as it is
given. -/
theorem toWKT_explicit_positions_witness :
    toWKT [⟨[lit "1.0 2.0", lit "3.0 4.0", lit "1.0 2.0"], [], []⟩]
      = some (lit "MULTIPOLYGON(((1.0 2.0, 3.0 4.0, 1.0 2.0)))") :=
  (toWKT_explicit_positions [lit "1.0 2.0", lit "3.0 4.0", lit "1.0 2.0"] [] [] (by decide)
    (by decide)).trans (by decide)

/-- C3: a ring given by a `posList` of `3n` tokens (`n ≥ 1`, the tokens non-empty, free of the
space and separated by single spaces) is encoded as the `x y` of every group of three, in
order, the third token of every group dropped. -/
theorem toWKT_position_list (pts : List (Str × Str × Str)) (co : Str) (hne : pts ≠ [])
    (htok : ∀ p ∈ pts, ∀ t ∈ [p.1, p.2.1, p.2.2], t ≠ [] ∧ 0x20 ∉ t) :
    toWKT [⟨[], Join (pts.map (fun p => [p.1, p.2.1, p.2.2])).flatten (lit " "), co⟩]
      = some (lit "MULTIPOLYGON(((" ++
          Join (pts.map (fun p => p.1 ++ lit " " ++ p.2.1)) (lit ", ") ++ lit ")))") := by
  rw [toWKT_single _ _ (ringPoly_of_posList pts co hne htok), multipolygon_single]

/-- Witness of C3: two groups of three tokens. -/
theorem toWKT_position_list_witness :
    toWKT [⟨[], lit "1.0 2.0 0.0 3.0 4.0 0.0", []⟩]
      = some (lit "MULTIPOLYGON(((1.0 2.0, 3.0 4.0)))") :=
  (toWKT_position_list [(lit "1.0", lit "2.0", lit "0.0"), (lit "3.0", lit "4.0", lit "0.0")] []
    (by decide) (by decide)).trans (by decide)

/-- C4: a ring given by a `coordinates` string whose whitespace-separated tokens all hold a
comma is encoded as the first two comma-separated fields of every token, in order; the result
depends on the string only through its tokens. -/
theorem toWKT_legacy_coordinates (co : Str) (hne : Fields co ≠ []) (h : ∀ t ∈ Fields co, 0x2C ∈ t) :
    toWKT [⟨[], [], co⟩]
      = some (lit "MULTIPOLYGON(((" ++
          Join ((Fields co).map (fun t =>
            (Split t 0x2C).getD 0 [] ++ lit " " ++ (Split t 0x2C).getD 1 []))
            (lit ", ") ++ lit ")))") ∧
    ∀ co1 : Str, Fields co1 = Fields co → toWKT [⟨[], [], co1⟩] = toWKT [⟨[], [], co⟩] := by
  have key : ∀ c : Str, Fields c = Fields co → toWKT [⟨[], [], c⟩]
      = some (lit "MULTIPOLYGON(((" ++
          Join ((Fields co).map (fun t =>
            (Split t 0x2C).getD 0 [] ++ lit " " ++ (Split t 0x2C).getD 1 []))
            (lit ", ") ++ lit ")))") := by
    intro c e
    rw [toWKT_single _ _ (ringPoly_of_coordinates c (e ▸ hne) (e ▸ h)), multipolygon_single, e]
  refine ⟨key co rfl, ?_⟩
  intro co1 e
  rw [key co rfl, key co1 e]

/-- Witness of C4: the third scenario, and the same tokens with irregular whitespace. -/
theorem toWKT_legacy_coordinates_witness :
    toWKT [⟨[], [], lit "1.0,2.0 3.0,4.0"⟩] = some (lit "MULTIPOLYGON(((1.0 2.0, 3.0 4.0)))") ∧
    toWKT [⟨[], [], lit "  1.0,2.0 \n\t 3.0,4.0 "⟩] = toWKT [⟨[], [], lit "1.0,2.0 3.0,4.0"⟩] :=
  ⟨(toWKT_legacy_coordinates (lit "1.0,2.0 3.0,4.0") (by decide) (by decide)).1.trans (by decide),
   (toWKT_legacy_coordinates (lit "1.0,2.0 3.0,4.0") (by decide) (by decide)).2
     (lit "  1.0,2.0 \n\t 3.0,4.0 ") (by decide)⟩

/-- C5: the three encodings of the same points (tokens non-empty, without whitespace and
without comma) give the same text: `pos` tokens `x y`, a `posList` of the tokens `x y z`
joined by single spaces, and `coordinates` tokens `x,y` joined by single spaces. -/
theorem toWKT_encoding_independent (pts : List (Str × Str × Str)) (hne : pts ≠ [])
    (htok : ∀ p ∈ pts, ∀ t ∈ [p.1, p.2.1, p.2.2],
      t ≠ [] ∧ (∀ r ∈ runes t, IsSpace r = false) ∧ 0x2C ∉ t) :
    toWKT [⟨pts.map (fun p => p.1 ++ lit " " ++ p.2.1), [], []⟩]
      = toWKT [⟨[], Join (pts.map (fun p => [p.1, p.2.1, p.2.2])).flatten (lit " "), []⟩] ∧
    toWKT [⟨[], Join (pts.map (fun p => [p.1, p.2.1, p.2.2])).flatten (lit " "), []⟩]
      = toWKT [⟨[], [], Join (pts.map (fun p => p.1 ++ lit "," ++ p.2.1)) (lit " ")⟩] ∧
    toWKT [⟨[], [], Join (pts.map (fun p => p.1 ++ lit "," ++ p.2.1)) (lit " ")⟩]
      = some (lit "MULTIPOLYGON(((" ++
          Join (pts.map (fun p => p.1 ++ lit " " ++ p.2.1)) (lit ", ") ++ lit ")))") := by
  have hx : ∀ p ∈ pts, p.1 ≠ [] ∧ (∀ r ∈ runes p.1, IsSpace r = false) ∧ 0x2C ∉ p.1 :=
    fun p hp => htok p hp p.1 (by simp)
  have hy : ∀ p ∈ pts, p.2.1 ≠ [] ∧ (∀ r ∈ runes p.2.1, IsSpace r = false) ∧ 0x2C ∉ p.2.1 :=
    fun p hp => htok p hp p.2.1 (by simp)
  have hpne : pts.map (fun p => p.1 ++ lit " " ++ p.2.1) ≠ [] := by
    intro e; exact hne (List.map_eq_nil_iff.mp e)
  have hcne : pts.map (fun p => p.1 ++ lit "," ++ p.2.1) ≠ [] := by
    intro e; exact hne (List.map_eq_nil_iff.mp e)
  -- the `pos` encoding
  have hfp : ∀ p ∈ pts, Fields (p.1 ++ lit " " ++ p.2.1) = [p.1, p.2.1] := fun p hp =>
    Fields_pair p.1 p.2.1 ⟨(hx p hp).1, (hx p hp).2.1⟩ ⟨(hy p hp).1, (hy p hp).2.1⟩
  have hA : toWKT [⟨pts.map (fun p => p.1 ++ lit " " ++ p.2.1), [], []⟩]
      = some (lit "MULTIPOLYGON(((" ++
          Join (pts.map (fun p => p.1 ++ lit " " ++ p.2.1)) (lit ", ") ++ lit ")))") := by
    rw [toWKT_single _ _ (ringPoly_of_pos _ [] [] hpne (by
      intro s hs
      obtain ⟨p, hp, rfl⟩ := List.mem_map.mp hs
      rw [hfp p hp]; simp)), multipolygon_single]
    have : (pts.map (fun p => p.1 ++ lit " " ++ p.2.1)).map (fun s =>
        (Fields s).getD 0 [] ++ lit " " ++ (Fields s).getD 1 [])
        = pts.map (fun p => p.1 ++ lit " " ++ p.2.1) := by
      rw [List.map_map]
      apply List.map_congr_left
      intro p hp
      show (Fields (p.1 ++ lit " " ++ p.2.1)).getD 0 [] ++ lit " " ++
        (Fields (p.1 ++ lit " " ++ p.2.1)).getD 1 [] = _
      rw [hfp p hp]
      rfl
    rw [this]
  -- the `posList` encoding
  have hB : toWKT [⟨[], Join (pts.map (fun p => [p.1, p.2.1, p.2.2])).flatten (lit " "), []⟩]
      = some (lit "MULTIPOLYGON(((" ++
          Join (pts.map (fun p => p.1 ++ lit " " ++ p.2.1)) (lit ", ") ++ lit ")))") := by
    rw [toWKT_single _ _ (ringPoly_of_posList pts [] hne (fun p hp t ht =>
      ⟨(htok p hp t ht).1, no_space_byte t (htok p hp t ht).2.1⟩)), multipolygon_single]
  -- the `coordinates` encoding
  have hfc : Fields (Join (pts.map (fun p => p.1 ++ lit "," ++ p.2.1)) (lit " "))
      = pts.map (fun p => p.1 ++ lit "," ++ p.2.1) := by
    rw [lit_space]
    apply FieldsFunc_Join IsSpace 0x20 (by decide) (by decide)
    intro t ht
    obtain ⟨p, hp, rfl⟩ := List.mem_map.mp ht
    refine ⟨?_, runes_comma_pair p.1 p.2.1 (hx p hp).2.1 (hy p hp).2.1⟩
    simp [(hx p hp).1]
  have hC : toWKT [⟨[], [], Join (pts.map (fun p => p.1 ++ lit "," ++ p.2.1)) (lit " ")⟩]
      = some (lit "MULTIPOLYGON(((" ++
          Join (pts.map (fun p => p.1 ++ lit " " ++ p.2.1)) (lit ", ") ++ lit ")))") := by
    rw [toWKT_single _ _ (ringPoly_of_coordinates _ (by rw [hfc]; exact hcne) (by
      intro t ht
      rw [hfc] at ht
      obtain ⟨p, hp, rfl⟩ := List.mem_map.mp ht
      simp [lit_comma])), multipolygon_single, hfc]
    have : (pts.map (fun p => p.1 ++ lit "," ++ p.2.1)).map (fun t =>
        (Split t 0x2C).getD 0 [] ++ lit " " ++ (Split t 0x2C).getD 1 [])
        = pts.map (fun p => p.1 ++ lit " " ++ p.2.1) := by
      rw [List.map_map]
      apply List.map_congr_left
      intro p hp
      show (Split (p.1 ++ lit "," ++ p.2.1) 0x2C).getD 0 [] ++ lit " " ++
        (Split (p.1 ++ lit "," ++ p.2.1) 0x2C).getD 1 [] = _
      rw [Split_comma_pair p.1 p.2.1 (hx p hp).2.2 (hy p hp).2.2]
      rfl
    rw [this]
  exact ⟨hA.trans hB.symm, hB.trans hC.symm, hC⟩

/-- Witness of C5: two points in the three encodings. -/
theorem toWKT_encoding_independent_witness :
    toWKT [⟨[lit "1.0 2.0", lit "3.0 4.0"], [], []⟩]
      = toWKT [⟨[], lit "1.0 2.0 0.0 3.0 4.0 0.0", []⟩] ∧
    toWKT [⟨[], lit "1.0 2.0 0.0 3.0 4.0 0.0", []⟩]
      = toWKT [⟨[], [], lit "1.0,2.0 3.0,4.0"⟩] ∧
    toWKT [⟨[], [], lit "1.0,2.0 3.0,4.0"⟩] = some (lit "MULTIPOLYGON(((1.0 2.0, 3.0 4.0)))") :=
  toWKT_encoding_independent
    [(lit "1.0", lit "2.0", lit "0.0"), (lit "3.0", lit "4.0", lit "0.0")] (by decide)
    (by decide)

/-- C6: `toWKT` writes the polygons of two rings one after the other with nothing between
them, not separated by a comma. -/
theorem toWKT_two_rings_no_separator :
    toWKT [⟨[lit "1 2"], [], []⟩, ⟨[lit "3 4"], [], []⟩]
      = some (lit "MULTIPOLYGON(((1 2))((3 4)))") ∧
    toWKT [⟨[lit "1 2"], [], []⟩] = some (lit "MULTIPOLYGON(" ++ lit "((1 2))" ++ lit ")") ∧
    toWKT [⟨[lit "3 4"], [], []⟩] = some (lit "MULTIPOLYGON(" ++ lit "((3 4))" ++ lit ")") ∧
    toWKT [⟨[lit "1 2"], [], []⟩, ⟨[lit "3 4"], [], []⟩]
      ≠ some (lit "MULTIPOLYGON(" ++ lit "((1 2))" ++ lit ", " ++ lit "((3 4))" ++ lit ")") := by
  decide

/-- C7 as stated fails: with a line feed in a token (a token free of spaces, commas and
parentheses) the pattern finds no ring and the result is the text `MULTIPOLYGO)`; with an
empty token `transform` panics. -/
theorem transform_line_feed_token :
    transform textNumeric
        (lit "MULTIPOLYGON(" ++ (lit "((" ++ (lit "1\n" ++ lit " " ++ lit "2") ++ lit "))")
          ++ lit ")") (lit "4326")
      = some (lit "MULTIPOLYGO)") ∧
    transform textNumeric
        (lit "MULTIPOLYGON(" ++ (lit "((" ++ (lit "1\n" ++ lit " " ++ lit "2") ++ lit "))")
          ++ lit ")") (lit "4326")
      ≠ some (lit "MULTIPOLYGON(" ++
          (lit "((" ++ reprojectPair textNumeric (lit "4326") (lit "1\n") (lit "2") ++ lit "))")
          ++ lit ")") ∧
    transform textNumeric
        (lit "MULTIPOLYGON(" ++ (lit "((" ++ (lit "" ++ lit " " ++ lit "2") ++ lit "))")
          ++ lit ")") (lit "4326")
      = none := by
  decide

/-- C7, amended: on a well-formed text of `n ≥ 1` polygons, polygon `i` with `m_i ≥ 1` pairs
of tokens that are non-empty and free of space, comma, parentheses and line feed, `transform`
returns the text of the same shape with every pair replaced by its formatted reprojection:
as many polygons, as many pairs in each, in the same order. -/
theorem transform_wellformed {F : Type} (num : Numeric F) (epsg : Str)
    (rings : List (List (Str × Str))) (hne : rings ≠ []) (hring : ∀ r ∈ rings, r ≠ [])
    (htok : ∀ r ∈ rings, ∀ p ∈ r, ∀ t ∈ [p.1, p.2],
      t ≠ [] ∧ 0x20 ∉ t ∧ 0x2C ∉ t ∧ 0x28 ∉ t ∧ 0x29 ∉ t ∧ 0x0A ∉ t) :
    transform num
        (lit "MULTIPOLYGON(" ++
          Join (rings.map (fun r =>
            lit "((" ++ Join (r.map (fun p => p.1 ++ lit " " ++ p.2)) (lit ", ") ++ lit "))"))
            (lit ", ") ++ lit ")") epsg
      = some (lit "MULTIPOLYGON(" ++
          Join (rings.map (fun r =>
            lit "((" ++ Join (r.map (fun p => reprojectPair num epsg p.1 p.2)) (lit ", ")
              ++ lit "))")) (lit ", ") ++ lit ")") :=
  transform_text num epsg rings hne hring htok

/-- Witness of C7, amended: two polygons, of two pairs and of one pair. -/
theorem transform_wellformed_witness :
    transform textNumeric (lit "MULTIPOLYGON(((1 2, 3 4)), ((5 6)))") (lit "4326")
      = some (lit "MULTIPOLYGON(((1 2, 3 4)), ((5 6)))") :=
  (transform_wellformed textNumeric (lit "4326")
    [[(lit "1", lit "2"), (lit "3", lit "4")], [(lit "5", lit "6")]]
    (by decide) (by decide) (by decide)).trans (by decide)

/-- C8 as stated fails: on a building whose five collections are all empty `GeometryAsWKT`
returns the empty string, not the text `MULTIPOLYGON()` that `toWKT` gives for an empty list. -/
theorem GeometryAsWKT_no_geometry_not_multipolygon :
    GeometryAsWKT ⟨lit "b1", [], [], [], [], []⟩ = some (lit "") ∧
    GeometryAsWKT ⟨lit "b1", [], [], [], [], []⟩ ≠ some (lit "MULTIPOLYGON()") ∧
    toWKT [] = some (lit "MULTIPOLYGON()") := by
  decide

/-- C8, amended: on every building whose five collections are all empty `GeometryAsWKT`
returns the empty string, and does not fail. -/
theorem GeometryAsWKT_all_empty (b : Building) (h0 : b.LOD0FootPrint = [])
    (h1 : b.LOD1MultiSurface = []) (h2 : b.LOD2MultiSurface = [])
    (h3 : b.LOD3MultiSurface = []) (h4 : b.LOD4MultiSurface = []) :
    GeometryAsWKT b = some (lit "") := by
  simp only [GeometryAsWKT, h0, h1, h2, h3, h4, List.length_nil, gt_iff_lt, Nat.lt_irrefl,
    if_false]

/-- Witness of C8, amended: a building with an identifier and no geometry. -/
theorem GeometryAsWKT_all_empty_witness :
    GeometryAsWKT ⟨lit "b1", [], [], [], [], []⟩ = some (lit "") :=
  GeometryAsWKT_all_empty ⟨lit "b1", [], [], [], [], []⟩ rfl rfl rfl rfl rfl

/-- C9: the `pos` encoding wins over `posList` and `coordinates`, and `posList` wins over
`coordinates`: the fields of lower precedence do not change the result (a panic included). -/
theorem toWKT_precedence (pos : List Str) (pl pl1 co co1 : Str) :
    (pos ≠ [] → toWKT [⟨pos, pl, co⟩] = toWKT [⟨pos, pl1, co1⟩]) ∧
    (pl ≠ [] → toWKT [⟨[], pl, co⟩] = toWKT [⟨[], pl, co1⟩]) := by
  constructor
  · intro h
    have hpos : pos.length > 0 := List.length_pos.mpr h
    simp [toWKT, toWKTLoop, ringPoly, hpos]
  · intro h
    simp [toWKT, toWKTLoop, ringPoly, h]

/-- Witness of C9: a ring with all three encodings populated is encoded from `pos`, and one
with `posList` and `coordinates` from `posList`. -/
theorem toWKT_precedence_witness :
    toWKT [⟨[lit "1 2"], lit "5 6 7", lit "8,9"⟩] = toWKT [⟨[lit "1 2"], lit "", lit ""⟩] ∧
    toWKT [⟨[], lit "5 6 7", lit "8,9"⟩] = toWKT [⟨[], lit "5 6 7", lit ""⟩] :=
  ⟨(toWKT_precedence [lit "1 2"] (lit "5 6 7") (lit "") (lit "8,9") (lit "")).1 (by decide),
   (toWKT_precedence [lit "1 2"] (lit "5 6 7") (lit "") (lit "8,9") (lit "")).2 (by decide)⟩

/-- C10: `toWKT` panics on a `pos` token with fewer than two fields and on a `coordinates`
token without a comma, also when the other rings of the list are well-formed, which alone are
encoded; a `posList` with too few tokens does not panic. -/
theorem toWKT_malformed_panics :
    toWKT [⟨[lit "1.0"], [], []⟩] = none ∧
    toWKT [⟨[lit ""], [], []⟩] = none ∧
    toWKT [⟨[], [], lit "1.0"⟩] = none ∧
    toWKT [⟨[lit "1 2"], [], []⟩, ⟨[lit "1.0"], [], []⟩, ⟨[lit "3 4"], [], []⟩] = none ∧
    toWKT [⟨[lit "1 2"], [], []⟩, ⟨[lit "3 4"], [], []⟩]
      = some (lit "MULTIPOLYGON(((1 2))((3 4)))") ∧
    toWKT [⟨[], lit "1.0", []⟩] = some (lit "MULTIPOLYGON(((1.)))") := by
  decide

/-- C11: `toWKT` cuts the last two bytes of `poly` also when no point was appended: the ring
with no decodable point loses its opening `((` and is written as `))`, not as `(())`. -/
theorem toWKT_empty_ring :
    toWKT [⟨[], [], []⟩] = some (lit "MULTIPOLYGON()))") ∧
    toWKT [⟨[], [], []⟩] ≠ some (lit "MULTIPOLYGON((()))") ∧
    toWKT [⟨[lit "1 2"], [], []⟩, ⟨[], [], []⟩] = some (lit "MULTIPOLYGON(((1 2)))))") := by
  decide

/-- C12 as stated fails: the token `abc` is no number, `ParseFloat` returns `0` with its error
and `transform` drops the error: the result is the ordinary text computed from `0`, the same
as for the token `0`. -/
theorem transform_swallows_parse_error :
    parseDecimal (lit "abc") = none ∧
    transform (decimalNumeric id) (lit "MULTIPOLYGON(((abc 2)))") (lit "4326")
      = some (lit "MULTIPOLYGON(((0.000000 2.000000)))") ∧
    transform (decimalNumeric id) (lit "MULTIPOLYGON(((0 2)))") (lit "4326")
      = some (lit "MULTIPOLYGON(((0.000000 2.000000)))") := by
  have p1 : parseParts (lit "abc") = none := by decide
  have p2 : parseParts (lit "2") = some (false, 2, 1) := by decide
  have p3 : parseParts (lit "0") = some (false, 0, 1) := by decide
  have f0 : formatFixed6 0 = lit "0.000000" := by
    have : ⌊(0 : ℚ) * 1000000 + 1 / 2⌋ = 0 := by
      rw [Int.floor_eq_iff]; norm_num
    rw [formatFixed6, this]; decide
  have f2 : formatFixed6 2 = lit "2.000000" := by
    have : ⌊(2 : ℚ) * 1000000 + 1 / 2⌋ = 2000000 := by
      rw [Int.floor_eq_iff]; norm_num
    rw [formatFixed6, this]; decide
  have hcat : lit "0.000000" ++ lit " " ++ lit "2.000000" = lit "0.000000 2.000000" := by decide
  have r1 : reprojectPair (decimalNumeric id) (lit "4326") (lit "abc") (lit "2")
      = lit "0.000000 2.000000" := by
    simp [reprojectPair, decimalNumeric, parseDecimal, p1, p2, f0, f2, hcat]
  have r2 : reprojectPair (decimalNumeric id) (lit "4326") (lit "0") (lit "2")
      = lit "0.000000 2.000000" := by
    simp [reprojectPair, decimalNumeric, parseDecimal, p3, p2, f0, f2, hcat]
  have t1 := transform_text (decimalNumeric id) (lit "4326") [[(lit "abc", lit "2")]]
    (by decide) (by decide) (by decide)
  have t2 := transform_text (decimalNumeric id) (lit "4326") [[(lit "0", lit "2")]]
    (by decide) (by decide) (by decide)
  simp only [List.map_cons, List.map_nil, Join, r1] at t1
  simp only [List.map_cons, List.map_nil, Join, r2] at t2
  have e1 : lit "MULTIPOLYGON(" ++ (lit "((" ++ (lit "abc" ++ lit " " ++ lit "2") ++ lit "))")
      ++ lit ")" = lit "MULTIPOLYGON(((abc 2)))" := by decide
  have e2 : lit "MULTIPOLYGON(" ++ (lit "((" ++ (lit "0" ++ lit " " ++ lit "2") ++ lit "))")
      ++ lit ")" = lit "MULTIPOLYGON(((0 2)))" := by decide
  have e3 : lit "MULTIPOLYGON(" ++ (lit "((" ++ lit "0.000000 2.000000" ++ lit "))") ++ lit ")"
      = lit "MULTIPOLYGON(((0.000000 2.000000)))" := by decide
  rw [e1, e3] at t1
  rw [e2, e3] at t2
  exact ⟨by simp [parseDecimal, p1], t1, t2⟩

/-- C12, amended: `transform` drops the error of `ParseFloat`. On every well-formed text,
whether or not its tokens are numbers, it returns the ordinary text computed from the values
that `ParseFloat` returns, and a text of the same shape whose tokens have the same values
gives the same result: no failure is reported and no ring is left out. -/
theorem transform_drops_parse_error {F : Type} (num : Numeric F) (epsg : Str)
    (rings rings1 : List (List (Str × Str))) (hne : rings ≠ [])
    (hring : ∀ r ∈ rings, r ≠ [])
    (htok : ∀ r ∈ rings, ∀ p ∈ r, ∀ t ∈ [p.1, p.2],
      t ≠ [] ∧ 0x20 ∉ t ∧ 0x2C ∉ t ∧ 0x28 ∉ t ∧ 0x29 ∉ t ∧ 0x0A ∉ t)
    (hring1 : ∀ r ∈ rings1, r ≠ [])
    (htok1 : ∀ r ∈ rings1, ∀ p ∈ r, ∀ t ∈ [p.1, p.2],
      t ≠ [] ∧ 0x20 ∉ t ∧ 0x2C ∉ t ∧ 0x28 ∉ t ∧ 0x29 ∉ t ∧ 0x0A ∉ t)
    (hsame : List.Forall₂ (List.Forall₂ (fun p q =>
      num.ParseFloat p.1 = num.ParseFloat q.1 ∧ num.ParseFloat p.2 = num.ParseFloat q.2))
      rings rings1) :
    transform num
        (lit "MULTIPOLYGON(" ++
          Join (rings.map (fun r =>
            lit "((" ++ Join (r.map (fun p => p.1 ++ lit " " ++ p.2)) (lit ", ") ++ lit "))"))
            (lit ", ") ++ lit ")") epsg
      = some (lit "MULTIPOLYGON(" ++
          Join (rings.map (fun r =>
            lit "((" ++ Join (r.map (fun p => reprojectPair num epsg p.1 p.2)) (lit ", ")
              ++ lit "))")) (lit ", ") ++ lit ")") ∧
    transform num
        (lit "MULTIPOLYGON(" ++
          Join (rings1.map (fun r =>
            lit "((" ++ Join (r.map (fun p => p.1 ++ lit " " ++ p.2)) (lit ", ") ++ lit "))"))
            (lit ", ") ++ lit ")") epsg
      = transform num
        (lit "MULTIPOLYGON(" ++
          Join (rings.map (fun r =>
            lit "((" ++ Join (r.map (fun p => p.1 ++ lit " " ++ p.2)) (lit ", ") ++ lit "))"))
            (lit ", ") ++ lit ")") epsg := by
  have hne1 : rings1 ≠ [] := by
    intro e
    rw [e] at hsame
    cases hsame
    exact hne rfl
  have h := transform_text num epsg rings hne hring htok
  have h1 := transform_text num epsg rings1 hne1 hring1 htok1
  refine ⟨h, ?_⟩
  rw [h, h1]
  have hmap : rings.map (fun r =>
        lit "((" ++ Join (r.map (fun p => reprojectPair num epsg p.1 p.2)) (lit ", ")
          ++ lit "))")
      = rings1.map (fun r =>
        lit "((" ++ Join (r.map (fun p => reprojectPair num epsg p.1 p.2)) (lit ", ")
          ++ lit "))") := by
    apply map_congr_forall₂ _ _ _ _ hsame
    intro r r1 hrr
    have : r.map (fun p => reprojectPair num epsg p.1 p.2)
        = r1.map (fun p => reprojectPair num epsg p.1 p.2) := by
      apply map_congr_forall₂ _ _ _ _ hrr
      intro p q hpq
      exact reprojectPair_congr num epsg _ _ _ _ hpq.1 hpq.2
    rw [this]
  rw [hmap]

/-- Witness of C12, amended: the token `abc`, which is no number, and the token `0`. -/
theorem transform_drops_parse_error_witness :
    transform (decimalNumeric id) (lit "MULTIPOLYGON(((abc 2)))") (lit "4326")
      = some (lit "MULTIPOLYGON(" ++ (lit "((" ++
          reprojectPair (decimalNumeric id) (lit "4326") (lit "abc") (lit "2") ++ lit "))")
          ++ lit ")") ∧
    transform (decimalNumeric id) (lit "MULTIPOLYGON(((0 2)))") (lit "4326")
      = transform (decimalNumeric id) (lit "MULTIPOLYGON(((abc 2)))") (lit "4326") :=
  transform_drops_parse_error (decimalNumeric id) (lit "4326")
    [[(lit "abc", lit "2")]] [[(lit "0", lit "2")]] (by decide) (by decide) (by decide)
    (by decide) (by decide)
    (List.Forall₂.cons
      (List.Forall₂.cons
        ⟨by simp [decimalNumeric, parseDecimal, parseParts_examples.1, parseParts_examples.2.1],
          rfl⟩
        List.Forall₂.nil)
      List.Forall₂.nil)

/-- C13: on a text with no ring `transform` cuts the last two bytes of the literal
`MULTIPOLYGON(` itself: the result is `MULTIPOLYGO)`, for the empty string (what
`GeometryAsWKT` gives for a building with no geometry) and for `MULTIPOLYGON()`. -/
theorem transform_no_ring {F : Type} (num : Numeric F) (epsg : Str) :
    transform num (lit "") epsg = some (lit "MULTIPOLYGO)") ∧
    transform num (lit "MULTIPOLYGON()") epsg = some (lit "MULTIPOLYGO)") ∧
    (GeometryAsWKT ⟨lit "b1", [], [], [], [], []⟩).bind (fun s => transform num s epsg)
      = some (lit "MULTIPOLYGO)") ∧
    lit "MULTIPOLYGO)" ≠ lit "MULTIPOLYGON()" ∧
    (lit "MULTIPOLYGO)").take (lit "MULTIPOLYGON(").length ≠ lit "MULTIPOLYGON(" := by
  have h1 : FindAllString (lit "") = [] := by decide
  have h2 : FindAllString (lit "MULTIPOLYGON()") = [] := by decide
  have h3 : sliceTo (lit "MULTIPOLYGON(") (((lit "MULTIPOLYGON(").length : Int) - 2)
      = some (lit "MULTIPOLYGO") := by decide
  have h4 : lit "MULTIPOLYGO" ++ lit ")" = lit "MULTIPOLYGO)" := by decide
  have h5 : GeometryAsWKT ⟨lit "b1", [], [], [], [], []⟩ = some (lit "") := by decide
  have e1 : transform num (lit "") epsg = some (lit "MULTIPOLYGO)") := by
    simp only [transform, h1, ringLoop, h3, h4]
  have e2 : transform num (lit "MULTIPOLYGON()") epsg = some (lit "MULTIPOLYGO)") := by
    simp only [transform, h2, ringLoop, h3, h4]
  refine ⟨e1, e2, ?_, by decide, by decide⟩
  rw [h5]
  exact e1

/-- C14: `toWKT` of the empty list of rings is the text `MULTIPOLYGON()`. -/
theorem toWKT_no_rings : toWKT [] = some (lit "MULTIPOLYGON()") := by
  simp only [toWKT, toWKTLoop]
  decide

/-- C15 as stated fails: `transform` converts the output of `Transform2` from radians to
degrees. With a `Transform2` that returns `x` and `y` unchanged, the pair `1 2`, parsed as the
numbers `1` and `2`, comes out as `57.295780 114.591559`: the output coordinates, read as
numbers, are not within `0.0000005` of `1` and `2`. The coordinate `Inf`, parsed as the
infinity, comes out as `+Inf`, the text of no number. -/
theorem transform_identity_scaled :
    (∀ x y : Float64, float64Numeric.Transform2 (lit "4326") x y = (x, y)) ∧
    transform float64Numeric (lit "MULTIPOLYGON(((1 2)))") (lit "4326")
      = some (lit "MULTIPOLYGON(((57.295780 114.591559)))") ∧
    (float64Numeric.ParseFloat (lit "1")).value = some 1 ∧
    (float64Numeric.ParseFloat (lit "2")).value = some 2 ∧
    decimalValue (lit "57.295780") = some (5729578 / 100000) ∧
    decimalValue (lit "114.591559") = some (114591559 / 1000000) ∧
    ¬ |(5729578 / 100000 : ℚ) - 1| ≤ 1 / 2000000 ∧
    ¬ |(114591559 / 1000000 : ℚ) - 2| ≤ 1 / 2000000 ∧
    transform float64Numeric (lit "MULTIPOLYGON(((Inf 2)))") (lit "4326")
      = some (lit "MULTIPOLYGON(((+Inf 114.591559)))") ∧
    (float64Numeric.ParseFloat (lit "Inf")).value = none ∧
    decimalValue (lit "+Inf") = none := by
  have t1 := transform_text float64Numeric (lit "4326") [[(lit "1", lit "2")]]
    (by decide) (by decide) (by decide)
  have t2 := transform_text float64Numeric (lit "4326") [[(lit "Inf", lit "2")]]
    (by decide) (by decide) (by decide)
  simp only [List.map_cons, List.map_nil, Join, reprojectPair_float64_examples.1] at t1
  simp only [List.map_cons, List.map_nil, Join, reprojectPair_float64_examples.2] at t2
  have e1 : lit "MULTIPOLYGON(" ++ (lit "((" ++ (lit "1" ++ lit " " ++ lit "2") ++ lit "))")
      ++ lit ")" = lit "MULTIPOLYGON(((1 2)))" := by decide
  have e2 : lit "MULTIPOLYGON(" ++ (lit "((" ++ (lit "Inf" ++ lit " " ++ lit "2") ++ lit "))")
      ++ lit ")" = lit "MULTIPOLYGON(((Inf 2)))" := by decide
  have e3 : lit "MULTIPOLYGON(" ++ (lit "((" ++ lit "57.295780 114.591559" ++ lit "))")
      ++ lit ")" = lit "MULTIPOLYGON(((57.295780 114.591559)))" := by decide
  have e4 : lit "MULTIPOLYGON(" ++ (lit "((" ++ lit "+Inf 114.591559" ++ lit "))")
      ++ lit ")" = lit "MULTIPOLYGON(((+Inf 114.591559)))" := by decide
  rw [e1, e3] at t1
  rw [e2, e4] at t2
  obtain ⟨d1, d2, d3, d4, d5⟩ := decimalValue_examples
  obtain ⟨p1, p2, p3⟩ := ParseFloat64_value_examples
  refine ⟨fun x y => rfl, t1, p1, p2, d3, d4, ?_, ?_, t2, p3, d5⟩
  · norm_num [abs_le]
  · norm_num [abs_le]

/-- C15, amended: when `Transform2` returns `x` and `y` unchanged, then on every well-formed
text the output of `transform` is the text of the same shape in which every coordinate `t` is
replaced by the six-place text of `RadToDeg` of the parsed `t`, and every output coordinate
whose value `RadToDeg` of the parsed `t` is finite is, read as a number, within `0.0000005`
of that value. `ParseFloat`, `Transform2` and `RadToDeg` are any functions on 64-bit numbers;
`FormatFloat6` is the format of Go. -/
theorem transform_identity_rounding (parse : Str → Float64)
    (tr : Str → Float64 → Float64 → Float64 × Float64) (conv : Float64 → Float64) (epsg : Str)
    (hid : ∀ x y : Float64, tr epsg x y = (x, y))
    (rings : List (List (Str × Str))) (hne : rings ≠ []) (hring : ∀ r ∈ rings, r ≠ [])
    (htok : ∀ r ∈ rings, ∀ p ∈ r, ∀ t ∈ [p.1, p.2],
      t ≠ [] ∧ 0x20 ∉ t ∧ 0x2C ∉ t ∧ 0x28 ∉ t ∧ 0x29 ∉ t ∧ 0x0A ∉ t) :
    transform ⟨parse, tr, conv, FormatFloat6⟩
        (lit "MULTIPOLYGON(" ++
          Join (rings.map (fun r =>
            lit "((" ++ Join (r.map (fun p => p.1 ++ lit " " ++ p.2)) (lit ", ") ++ lit "))"))
            (lit ", ") ++ lit ")") epsg
      = some (lit "MULTIPOLYGON(" ++
          Join (rings.map (fun r =>
            lit "((" ++ Join (r.map (fun p =>
              FormatFloat6 (conv (parse p.1)) ++ lit " " ++ FormatFloat6 (conv (parse p.2))))
              (lit ", ") ++ lit "))")) (lit ", ") ++ lit ")") ∧
    ∀ r ∈ rings, ∀ p ∈ r, ∀ t ∈ [p.1, p.2], ∀ q : ℚ, (conv (parse t)).value = some q →
      ∃ o : ℚ, decimalValue (FormatFloat6 (conv (parse t))) = some o ∧
        |o - q| ≤ 1 / 2000000 := by
  have hpair : ∀ a b : Str, reprojectPair ⟨parse, tr, conv, FormatFloat6⟩ epsg a b
      = FormatFloat6 (conv (parse a)) ++ lit " " ++ FormatFloat6 (conv (parse b)) := by
    intro a b
    simp only [reprojectPair, hid]
  have h := transform_text ⟨parse, tr, conv, FormatFloat6⟩ epsg rings hne hring htok
  simp only [hpair] at h
  exact ⟨h, fun _ _ _ _ t _ q hq => FormatFloat6_rounding (conv (parse t)) q hq⟩

/-- Witness of C15, amended: the library on 64-bit numbers with the `RadToDeg` of the code, on
the pair `1 2`. The values of `RadToDeg` are `8063664102031864 / 2 ^ 47` (`57.29577951308232`)
and `8063664102031864 / 2 ^ 46` (`114.59155902616465`), and the output coordinates `57.295780`
and `114.591559` are within `0.0000005` of them. -/
theorem transform_identity_rounding_witness :
    (∀ x y : Float64, float64Numeric.Transform2 (lit "4326") x y = (x, y)) ∧
    transform float64Numeric (lit "MULTIPOLYGON(((1 2)))") (lit "4326")
      = some (lit "MULTIPOLYGON(((57.295780 114.591559)))") ∧
    (RadToDeg64 (ParseFloat64 (lit "1"))).value
      = some (8063664102031864 / 140737488355328) ∧
    (RadToDeg64 (ParseFloat64 (lit "2"))).value
      = some (8063664102031864 / 70368744177664) ∧
    (∃ o : ℚ, decimalValue (lit "57.295780") = some o ∧
      |o - 8063664102031864 / 140737488355328| ≤ 1 / 2000000) ∧
    (∃ o : ℚ, decimalValue (lit "114.591559") = some o ∧
      |o - 8063664102031864 / 70368744177664| ≤ 1 / 2000000) := by
  obtain ⟨h1, h2⟩ := transform_identity_rounding ParseFloat64 (fun _ x y => (x, y)) RadToDeg64
    (lit "4326") (fun _ _ => rfl) [[(lit "1", lit "2")]] (by decide) (by decide) (by decide)
  obtain ⟨r1, r2, f1, f2⟩ := RadToDeg64_examples
  obtain ⟨v1, v2⟩ := value_examples
  have b1 := h2 _ (List.mem_singleton_self _) _ (List.mem_singleton_self _) (lit "1")
    (List.mem_cons_self _ _) _ (by rw [r1]; exact v1)
  have b2 := h2 _ (List.mem_singleton_self _) _ (List.mem_singleton_self _) (lit "2")
    (List.mem_cons_of_mem _ (List.mem_cons_self _ _)) _ (by rw [r2]; exact v2)
  rw [r1, f1] at b1
  rw [r2, f2] at b2
  simp only [List.map_cons, List.map_nil, Join, r1, r2, f1, f2] at h1
  have e1 : lit "MULTIPOLYGON(" ++ (lit "((" ++ (lit "1" ++ lit " " ++ lit "2") ++ lit "))")
      ++ lit ")" = lit "MULTIPOLYGON(((1 2)))" := by decide
  have e3 : lit "MULTIPOLYGON(" ++
      (lit "((" ++ (lit "57.295780" ++ lit " " ++ lit "114.591559") ++ lit "))")
      ++ lit ")" = lit "MULTIPOLYGON(((57.295780 114.591559)))" := by decide
  rw [e1, e3] at h1
  refine ⟨fun _ _ => rfl, h1, ?_, ?_, b1, b2⟩
  · rw [r1]; exact v1
  · rw [r2]; exact v2

/-- C16 as stated fails: the position list of the second scenario holds two groups of three
tokens and gives two points, not the three points of the first scenario. -/
theorem toWKT_scenario_two_differs :
    toWKT [⟨[lit "1.0 2.0", lit "3.0 4.0", lit "1.0 2.0"], [], []⟩]
      = some (lit "MULTIPOLYGON(((1.0 2.0, 3.0 4.0, 1.0 2.0)))") ∧
    toWKT [⟨[], lit "1.0 2.0 0.0 3.0 4.0 0.0", []⟩]
      ≠ some (lit "MULTIPOLYGON(((1.0 2.0, 3.0 4.0, 1.0 2.0)))") := by
  decide

/-- C16, amended: the position list `1.0 2.0 0.0 3.0 4.0 0.0` gives the two points
`MULTIPOLYGON(((1.0 2.0, 3.0 4.0)))`, the text of the first two `pos` tokens of the first
scenario; the text of the first scenario is given by the position list with the third group
`1.0 2.0 0.0` added. -/
theorem toWKT_scenario_two :
    toWKT [⟨[], lit "1.0 2.0 0.0 3.0 4.0 0.0", []⟩]
      = some (lit "MULTIPOLYGON(((1.0 2.0, 3.0 4.0)))") ∧
    toWKT [⟨[], lit "1.0 2.0 0.0 3.0 4.0 0.0", []⟩]
      = toWKT [⟨[lit "1.0 2.0", lit "3.0 4.0"], [], []⟩] ∧
    toWKT [⟨[], lit "1.0 2.0 0.0 3.0 4.0 0.0 1.0 2.0 0.0", []⟩]
      = toWKT [⟨[lit "1.0 2.0", lit "3.0 4.0", lit "1.0 2.0"], [], []⟩] := by
  decide

/-- C17: the `posList` branch splits on the single space only: with a line feed, a run of two
spaces, a leading space, a trailing space or a tab between tokens the result is not that of
the tokens joined by single spaces. -/
theorem toWKT_posList_single_space_only :
    toWKT [⟨[], lit "1.0 2.0 0.0\n3.0 4.0 0.0", []⟩]
      = some (lit "MULTIPOLYGON(((1.0 2.0, 4.0 0.)))") ∧
    toWKT [⟨[], Join (Fields (lit "1.0 2.0 0.0\n3.0 4.0 0.0")) (lit " "), []⟩]
      = some (lit "MULTIPOLYGON(((1.0 2.0, 3.0 4.0)))") ∧
    toWKT [⟨[], lit "1.0 2.0 0.0  3.0 4.0 0.0", []⟩]
      = some (lit "MULTIPOLYGON(((1.0 2.0,  3.0, 0.)))") ∧
    toWKT [⟨[], Join (Fields (lit "1.0 2.0 0.0  3.0 4.0 0.0")) (lit " "), []⟩]
      = some (lit "MULTIPOLYGON(((1.0 2.0, 3.0 4.0)))") ∧
    toWKT [⟨[], lit " 1.0 2.0 0.0", []⟩] = some (lit "MULTIPOLYGON((( 1.0, 0.)))") ∧
    toWKT [⟨[], lit "1.0 2.0 0.0 ", []⟩] = some (lit "MULTIPOLYGON(((1.0 2.0,)))") ∧
    toWKT [⟨[], lit "1.0\t2.0\t0.0", []⟩] = some (lit "MULTIPOLYGON(((1.0\t2.0\t0.)))") ∧
    toWKT [⟨[], [], lit "1.0,2.0\n3.0,4.0"⟩] = some (lit "MULTIPOLYGON(((1.0 2.0, 3.0 4.0)))") := by
  decide

/-- C18: for a building whose first non-empty collection holds rings that are well-formed in
one encoding each (`pos`, `posList` or `coordinates`; every ring with at least one point, the
tokens non-empty and free of whitespace, comma and parentheses), `transform` of the text of
`GeometryAsWKT` has one polygon for every ring and one pair for every point, in order,
although `toWKT` writes the polygons with nothing between them. -/
theorem transform_reparses_encoder {F : Type} (num : Numeric F) (epsg : Str) (b : Building)
    (g : List Geometry)
    (hsel : [b.LOD0FootPrint, b.LOD1MultiSurface, b.LOD2MultiSurface, b.LOD3MultiSurface,
      b.LOD4MultiSurface].find? (fun c => decide (c ≠ [])) = some g)
    (ptss : List (List (Str × Str × Str))) (henc : List.Forall₂ EncodesPoints g ptss)
    (hk : ∀ pts ∈ ptss, pts ≠ [])
    (htok : ∀ pts ∈ ptss, ∀ p ∈ pts, ∀ t ∈ [p.1, p.2.1, p.2.2],
      t ≠ [] ∧ (∀ r ∈ runes t, IsSpace r = false) ∧ 0x2C ∉ t ∧ 0x28 ∉ t ∧ 0x29 ∉ t) :
    (GeometryAsWKT b).bind (fun s => transform num s epsg)
      = some (lit "MULTIPOLYGON(" ++
          Join (ptss.map (fun pts =>
            lit "((" ++ Join (pts.map (fun p => reprojectPair num epsg p.1 p.2.1)) (lit ", ")
              ++ lit "))")) (lit ", ") ++ lit ")") := by
  obtain ⟨hwkt, hg⟩ := GeometryAsWKT_selected b g hsel
  have hpne : ptss ≠ [] := by
    intro e
    rw [e] at henc
    cases henc
    exact hg rfl
  -- the text that `toWKT` writes
  have hpoly := ringPoly_encoded_all g ptss henc hk (fun pts hp p hq t ht =>
    ⟨(htok pts hp p hq t ht).1, (htok pts hp p hq t ht).2.1, (htok pts hp p hq t ht).2.2.1⟩)
  have htext := toWKT_polygons g _ hpoly
  -- the matches that `transform` finds in it
  have hrings := transform_concat num epsg (ptss.map (fun pts => pts.map (fun p => (p.1, p.2.1))))
    (by intro e; exact hpne (List.map_eq_nil_iff.mp e))
    (by
      intro r hr
      obtain ⟨pts, hp, rfl⟩ := List.mem_map.mp hr
      intro e
      exact hk pts hp (List.map_eq_nil_iff.mp e))
    (by
      intro r hr q hq t ht
      obtain ⟨pts, hp, rfl⟩ := List.mem_map.mp hr
      obtain ⟨p, hpp, rfl⟩ := List.mem_map.mp hq
      have ht3 : t ∈ [p.1, p.2.1, p.2.2] := by
        simp only [List.mem_cons, List.mem_singleton, List.not_mem_nil, or_false] at ht ⊢
        rcases ht with h | h
        · exact Or.inl h
        · exact Or.inr (Or.inl h)
      have h := htok pts hp p hpp t ht3
      exact ⟨h.1, no_space_byte t h.2.1, h.2.2.1, h.2.2.2.1, h.2.2.2.2,
        no_line_feed_byte t h.2.1⟩)
  simp only [List.map_map, Function.comp_def] at hrings
  rw [hwkt, htext]
  exact hrings

/-- Witness of C18: a building whose LOD1 collection holds four rings in four encodings; the
text of `toWKT` has no separator between the polygons, that of `transform` has. -/
theorem transform_reparses_encoder_witness :
    (GeometryAsWKT ⟨lit "b1", [],
        [⟨[lit "1 2", lit "3 4"], [], []⟩, ⟨[], lit "5 6 7", []⟩, ⟨[], [], lit "8,9"⟩,
          ⟨[lit "1 2 0"], [], []⟩],
        [], [], []⟩).bind (fun s => transform textNumeric s (lit "4326"))
      = some (lit "MULTIPOLYGON(((1 2, 3 4)), ((5 6)), ((8 9)), ((1 2)))") :=
  (transform_reparses_encoder textNumeric (lit "4326")
    ⟨lit "b1", [],
      [⟨[lit "1 2", lit "3 4"], [], []⟩, ⟨[], lit "5 6 7", []⟩, ⟨[], [], lit "8,9"⟩,
        ⟨[lit "1 2 0"], [], []⟩],
      [], [], []⟩
    [⟨[lit "1 2", lit "3 4"], [], []⟩, ⟨[], lit "5 6 7", []⟩, ⟨[], [], lit "8,9"⟩,
      ⟨[lit "1 2 0"], [], []⟩]
    (by decide)
    [[(lit "1", lit "2", lit "0"), (lit "3", lit "4", lit "0")], [(lit "5", lit "6", lit "7")],
      [(lit "8", lit "9", lit "0")], [(lit "1", lit "2", lit "0")]]
    (List.Forall₂.cons (Or.inl (by decide))
      (List.Forall₂.cons (Or.inr (Or.inr (Or.inl (by decide))))
        (List.Forall₂.cons (Or.inr (Or.inr (Or.inr (Or.inl (by decide)))))
          (List.Forall₂.cons (Or.inr (Or.inl (by decide))) List.Forall₂.nil))))
    (by decide) (by decide)).trans (by decide)

end GoSAFE
